/-
Verification of the route-info-builder pipeline.

The Rust sources are shallowly embedded: `syn` syntax trees become inductive
types, stateful interpreter loops become explicit state passing over `Except`,
and the string manipulation of the Rust standard library is re-implemented on
`List Char` (all route data in scope is ASCII, so `char::is_alphanumeric`,
`to_uppercase`, … are modelled by their ASCII behaviour).  External crates
(`convert_case`) are abstracted as function parameters; nothing proved below
depends on their internals.
-/
import Mathlib

namespace RouteInfoBuilder

/-! ## String helpers (Rust std string methods, on `List Char`) -/

/-- Rust `str::trim_start_matches(c)`: drop every leading occurrence of `c`. -/
def trimStartList (c : Char) : List Char → List Char
  | [] => []
  | x :: xs => if x = c then trimStartList c xs else x :: xs

/-- Rust `str::trim_end_matches(c)`: drop every trailing occurrence of `c`. -/
def trimEndList (c : Char) : List Char → List Char
  | [] => []
  | x :: xs =>
    match trimEndList c xs with
    | [] => if x = c then [] else [x]
    | r => x :: r

/-- Rust `str::trim_matches(c)`: drop occurrences of `c` at both ends. -/
def trimMatchesList (c : Char) (l : List Char) : List Char :=
  trimEndList c (trimStartList c l)

/-- Rust `str::split('/')`: split at every slash, keeping empty pieces. -/
def splitSlash : List Char → List (List Char)
  | [] => [[]]
  | '/' :: rest => [] :: splitSlash rest
  | c :: rest =>
    match splitSlash rest with
    | s :: ss => (c :: s) :: ss
    | [] => [[c]]

/-- String wrapper for `trim_start_matches`. -/
def trimStartMatches (s : String) (c : Char) : String :=
  ⟨trimStartList c s.toList⟩

/-- String wrapper for `trim_end_matches`. -/
def trimEndMatches (s : String) (c : Char) : String :=
  ⟨trimEndList c s.toList⟩

/-- String wrapper for `trim_matches`. -/
def trimMatches (s : String) (c : Char) : String :=
  ⟨trimMatchesList c s.toList⟩

/-- Rust `str::starts_with(pat)`, via character lists. -/
def strStartsWith (s pat : String) : Bool :=
  pat.toList.isPrefixOf s.toList

/-- Rust `str::ends_with(pat)`, via character lists. -/
def strEndsWith (s pat : String) : Bool :=
  pat.toList.isSuffixOf s.toList

/-- Rust `str::to_uppercase`, restricted to its ASCII behaviour. -/
def toUpperStr (s : String) : String :=
  ⟨s.toList.map Char.toUpper⟩

/-- Rust `str::to_lowercase`, restricted to its ASCII behaviour. -/
def toLowerStr (s : String) : String :=
  ⟨s.toList.map Char.toLower⟩

/-- Rust `String::replace("//", "/")`: non-overlapping left-to-right. -/
def replaceDoubleSlash : List Char → List Char
  | '/' :: '/' :: rest => '/' :: replaceDoubleSlash rest
  | c :: rest => c :: replaceDoubleSlash rest
  | [] => []

/-- The source loops `result = result.replace("__", "_")` until no `"__"` is
left.  The fixpoint of that loop collapses every run of underscores to a
single underscore while leaving all other characters in place, which is what
this single pass computes. -/
def collapseUnderscores : List Char → List Char
  | '_' :: '_' :: rest => collapseUnderscores ('_' :: rest)
  | c :: rest => c :: collapseUnderscores rest
  | [] => []

/-! ## src/utils/path.rs -/

/-- Is a path segment a `\x7bname\x7d` parameter placeholder?  Mirrors
`segment.starts_with('\x7b') && segment.ends_with('\x7d')`: a one-character
segment cannot satisfy both. -/
def isBraceSegment (seg : List Char) : Bool :=
  seg.head? == some '{' && seg.getLast? == some '}'

/-- Rust `segment[1..segment.len() - 1]`: strip the surrounding braces. -/
def braceInner (seg : List Char) : List Char :=
  (seg.drop 1).dropLast

/-- The `retain(|p| seen.insert(p.clone()))` loop of
`extract_parameters_from_path`: keep an element iff its key was not seen
before, accumulating the seen set. -/
def retainUnseen (seen : List String) : List String → List String
  | [] => []
  | x :: xs =>
    if x ∈ seen then retainUnseen seen xs
    else x :: retainUnseen (x :: seen) xs

/-- src/utils/path.rs `extract_parameters_from_path` (the copy in src/lib.rs
is textually identical): collect the inner names of `\x7b…\x7d` segments, then
drop duplicates keeping first occurrences. -/
def extract_parameters_from_path (path : String) : List String :=
  let params := (splitSlash path.toList).filterMap fun seg =>
    if isBraceSegment seg then some (String.mk (braceInner seg)) else none
  retainUnseen [] params

/-- src/utils/path.rs `build_full_path`. -/
def build_full_path (pfx path : String) : String :=
  if pfx = "" then path
  else
    let cleanPfx := trimEndMatches pfx '/'
    let cleanPath := trimStartMatches path '/'
    cleanPfx ++ "/" ++ cleanPath

/-! ## The `syn` syntax-tree fragment the pipeline inspects

Only the node shapes the Rust code pattern-matches on are distinguished;
every other node collapses into an `other` constructor, exactly like the
`_ => ...` fallthrough arms of the source.  Generic arguments that are not
path types (lifetimes, const arguments, tuple types, …) collapse into
`GenArg.other`, since every source pattern
`Some(GenericArgument::Type(Type::Path(p)))` rejects them alike. -/

mutual

/-- One `syn::PathSegment`: an identifier plus its generic arguments. -/
inductive PathSeg where
  | mk (ident : String) (arguments : PathArgs)

/-- The `syn::PathArguments` of a segment. -/
inductive PathArgs where
  | none
  | angleBracketed (args : List GenArg)
  | otherArgs

/-- One `syn::GenericArgument`. -/
inductive GenArg where
  | typePath (segments : List PathSeg)
  | other

end

/-- The identifier of a path segment. -/
def PathSeg.ident : PathSeg → String
  | .mk i _ => i

/-- The generic arguments of a path segment. -/
def PathSeg.arguments : PathSeg → PathArgs
  | .mk _ a => a

/-- The `syn::Type` shapes `extract_return_type` distinguishes. -/
inductive Ty where
  | path (segments : List PathSeg)
  | implTrait
  | other

/-- The `syn::ReturnType` of a function signature. -/
inductive RetAnn where
  | default
  | ty (t : Ty)

/-- A `syn::Lit` literal. -/
inductive Lit where
  | str (s : String)
  | other

mutual

/-- The `syn::Expr` shapes the interpreter and the visitor distinguish.
For `Expr::If` the then-branch is kept as its statement list (the source
reads `if_expr.then_branch.stmts`) and for `Expr::Match` only the arm bodies
are kept (the source reads `arm.body`). -/
inductive Expr where
  | methodCall (receiver : Expr) (method : String) (args : List Expr)
  | call (func : Expr) (args : List Expr)
  | lit (l : Lit)
  | path (segments : List PathSeg)
  | ret (e : Option Expr)
  | block (stmts : List Stmt)
  | ifE (cond : Expr) (thenStmts : List Stmt) (elseBranch : Option Expr)
  | matchE (scrutinee : Expr) (arms : List Expr)
  | other

/-- The `syn::Stmt` shapes the source distinguishes: `Stmt::Expr` (with or
without semicolon — the source never looks at the semicolon token),
`Stmt::Local` with its optional initializer, and `Stmt::Item` /
`Stmt::Macro`, which every visitor skips. -/
inductive Stmt where
  | expr (e : Expr)
  | letS (init : Option Expr)
  | itemStmt
  | macStmt

end

/-! ## Data model (src/parser/mod.rs, src/config/mod.rs) -/

/-- src/parser/handlers.rs `ReturnTypeVisitor`: the visitor state doubles as
the return-type record stored in `HandlerInfo`. -/
structure ReturnTypeVisitor where
  found_type : Option String
  is_importable : Bool
deriving DecidableEq

/-- Rust `ReturnTypeVisitor::default()`. -/
def ReturnTypeVisitor.default : ReturnTypeVisitor :=
  { found_type := none, is_importable := false }

/-- src/parser/mod.rs `HandlerInfo`. -/
structure HandlerInfo where
  body_param : Option String
  requires_auth : Bool
  return_type : ReturnTypeVisitor
deriving DecidableEq

/-- src/parser/mod.rs `RouteInfo`. -/
structure RouteInfo where
  name : String
  path : String
  method : String
  handler : String
  handler_info : HandlerInfo
deriving DecidableEq

/-- src/config/mod.rs `NamingConfig`.  The two trailing option fields
 variant_prefix and variant_suffix are carried for completeness; no claim
below touches them. -/
structure NamingConfig where
  include_method_in_names : Option Bool
  path_prefix_to_remove : Option String
  variant_case : Option String
  field_case : Option String
  word_separators : Option String
  preserve_numbers : Option Bool
  vPrefixOpt : Option String
  vSuffixOpt : Option String

/-- Rust `NamingConfig::default()` (all fields `None`). -/
def NamingConfig.default : NamingConfig :=
  ⟨none, none, none, none, none, none, none, none⟩

/-- src/config/mod.rs `Config`, restricted to the field the parser uses
(`controllers_path` and the TypeScript output options are filesystem
concerns outside the embedded fragment). -/
structure Config where
  naming : NamingConfig

/-! ## src/utils/case.rs -/

/-- src/utils/case.rs `sanitize_identifier`: force a leading letter or
underscore, then map every non-alphanumeric, non-underscore character to an
underscore.  Rust's Unicode `is_alphabetic` / `is_alphanumeric` are modelled
by their ASCII restrictions `Char.isAlpha` / `Char.isAlphanum`. -/
def sanitize_identifier (name : String) : String :=
  let chars := name.toList
  let lead : List Char :=
    match chars with
    | c :: _ => if ¬ c.isAlpha ∧ c ≠ '_' then ['_'] else []
    | [] => []
  ⟨lead ++ chars.map fun c => if c.isAlphanum ∨ c = '_' then c else '_'⟩

/-- The case conversions of the external `convert_case` crate, abstracted:
the pipeline only ever forwards to them, so each conversion is a parameter. -/
structure CaseFns where
  camel : String → String
  pascal : String → String
  snake : String → String
  kebab : String → String
  title : String → String

/-- src/utils/case.rs `convert_to_case`, with the `convert_case` crate
abstracted as `fns`. -/
def convert_to_case (fns : CaseFns) (input : String) (caseName : String) : String :=
  let c := toLowerStr caseName
  if c = "camel" ∨ c = "camelcase" then fns.camel input
  else if c = "pascal" ∨ c = "pascalcase" then fns.pascal input
  else if c = "snake" ∨ c = "snake_case" then fns.snake input
  else if c = "kebab" ∨ c = "kebab-case" then fns.kebab input
  else if c = "title" ∨ c = "title_case" then fns.title input
  else if c = "lower" ∨ c = "lowercase" then toLowerStr input
  else if c = "upper" ∨ c = "uppercase" then toUpperStr input
  else input

/-! ## src/config/naming.rs -/

/-- Rust `String::replace(c, "_")` for a single-character pattern and
single-character replacement: a character-wise map. -/
def replaceCharWith (c d : Char) (l : List Char) : List Char :=
  l.map fun x => if x = c then d else x

/-- src/config/naming.rs `clean_route_path_for_name`. -/
def clean_route_path_for_name (path : String) (config : NamingConfig) : String :=
  let result := replaceDoubleSlash (trimMatchesList '/' path.toList)
  -- `result.replace('\x7b', "").replace('\x7d', "")`: drop every brace.
  let result := result.filter fun c => c ≠ '{' ∧ c ≠ '}'
  let result :=
    match config.word_separators with
    | some separators => separators.toList.foldl (fun r sep => replaceCharWith sep '_' r) result
    | none =>
      -- `result.replace(['-', '/', '.', ':'], "_")`
      result.map fun c => if c = '-' ∨ c = '/' ∨ c = '.' ∨ c = ':' then '_' else c
  let result := collapseUnderscores result
  ⟨trimMatchesList '_' result⟩

/-- src/config/naming.rs `generate_route_name`. -/
def generate_route_name (path method : String) (config : NamingConfig) : String :=
  let include_method := config.include_method_in_names.getD true
  let name_path := path
  -- Remove the configured prefix from the name (never from the route path).
  let name_path :=
    match config.path_prefix_to_remove with
    | some toRemove =>
      let normalizedPfx := trimMatches toRemove '/'
      let normalizedPath := trimMatches name_path '/'
      if strStartsWith normalizedPath normalizedPfx then
        trimStartMatches (String.mk (normalizedPath.toList.drop normalizedPfx.toList.length)) '/'
      else name_path
    | none => name_path
  let clean_path := clean_route_path_for_name name_path config
  let base_name := if clean_path = "" ∨ clean_path = "/" then "root" else clean_path
  let name := if include_method then toLowerStr method ++ "_" ++ base_name else base_name
  sanitize_identifier name

/-! ## Route chain interpreter (src/parser/mod.rs) -/

/-- src/parser/mod.rs `extract_string_literal`. -/
def extract_string_literal : Expr → Option String
  | .lit (.str s) => some s
  | _ => none

/-- src/parser/mod.rs `extract_http_method_and_handler`: the argument must be
a call `verb(handler)` whose function is a path (last segment upper-cased to
the HTTP method) and whose first argument is a path to the handler. -/
def extract_http_method_and_handler : Expr → Option (String × String)
  | .call (.path segments) args =>
    match segments.getLast? with
    | some segment =>
      let methodName := toUpperStr segment.ident
      match args.head? with
      | some (.path handlerSegs) =>
        match handlerSegs.getLast? with
        | some handlerSeg => some (methodName, handlerSeg.ident)
        | none => none
      | _ => none
    | none => none
  | _ => none

/-- The mutable `(routes, current_prefix)` pair threaded through
`extract_routes_from_expr` (`pfx` stands for the source's `prefix`, which
Lean reserves). -/
structure ExtractState where
  routes : List RouteInfo
  pfx : String
deriving DecidableEq

/-- src/parser/mod.rs `extract_routes_from_expr`.  A method call first
processes its receiver, then interprets `prefix`/`add`; a call expression
whose function path ends in `new` resets the prefix; everything else is
ignored.  The two `.ok_or(...)?` lines of the `add` arm become `.error`. -/
def extract_routes_from_expr (config : Config) : Expr → ExtractState → Except String ExtractState
  | .methodCall receiver methodName args, st =>
    -- FIRST process the receiver to establish context (including prefixes).
    match extract_routes_from_expr config receiver st with
    | .error e => .error e
    | .ok st1 =>
      if methodName = "prefix" then
        match args.head? with
        | some (.lit (.str s)) =>
          .ok { st1 with pfx := if strStartsWith s "/" then s else "/" ++ s }
        | _ => .ok st1
      else if methodName = "add" then
        match args.get? 0, args.get? 1 with
        | some path_expr, some method_expr =>
          (match extract_string_literal path_expr with
           | none => .error "Failed to extract path from add() call"
           | some path =>
             match extract_http_method_and_handler method_expr with
             | none => .error "Failed to extract HTTP method and handler from add() call"
             | some (method, handler) =>
               let full_path := build_full_path st1.pfx path
               let name := generate_route_name full_path method config.naming
               .ok { st1 with
                     routes := st1.routes ++
                       [{ name := name, path := full_path, method := method,
                          handler := handler,
                          handler_info :=
                            { body_param := none, requires_auth := false,
                              return_type := ReturnTypeVisitor.default } }] })
        | _, _ => .ok st1
      else .ok st1
  | .call func _args, st =>
    (match func with
     | .path segments =>
       match segments.getLast? with
       | some segment =>
         if segment.ident = "new" then .ok { st with pfx := "" } else .ok st
       | none => .ok st
     | _ => .ok st)
  | _, st => .ok st

/-- The statement loop of src/parser/mod.rs `extract_routes_from_axum_function`
written as explicit recursion: `Stmt::Expr` statements are interpreted (the
`?` aborts on the first error), every other statement kind is skipped. -/
def extract_routes_from_stmts (config : Config) :
    List Stmt → ExtractState → Except String ExtractState
  | [], st => .ok st
  | stmt :: rest, st =>
    match stmt with
    | .expr e =>
      match extract_routes_from_expr config e st with
      | .error msg => .error msg
      | .ok st1 => extract_routes_from_stmts config rest st1
    | _ => extract_routes_from_stmts config rest st

/-- src/parser/mod.rs `extract_routes_from_axum_function`, applied to the
statement list of the `routes` function's block. -/
def extract_routes_from_axum_function (config : Config) (stmts : List Stmt) :
    Except String (Option (List RouteInfo)) :=
  match extract_routes_from_stmts config stmts { routes := [], pfx := "" } with
  | .error e => .error e
  | .ok st => .ok (if st.routes.isEmpty then none else some st.routes)

/-! ## Return-type visitor (src/parser/handlers.rs) -/

/-- src/parser/handlers.rs `is_builtin_type_rust`. -/
def is_builtin_type_rust (type_name : String) : Bool :=
  type_name = "i8" ∨ type_name = "i16" ∨ type_name = "i32" ∨ type_name = "i64" ∨
  type_name = "i128" ∨ type_name = "isize" ∨ type_name = "u8" ∨ type_name = "u16" ∨
  type_name = "u32" ∨ type_name = "u64" ∨ type_name = "u128" ∨ type_name = "usize" ∨
  type_name = "f32" ∨ type_name = "f64" ∨ type_name = "bool" ∨ type_name = "char" ∨
  type_name = "str" ∨ type_name = "String"

/-- src/parser/handlers.rs `ReturnTypeVisitor::extract_vec_type`: recognize a
`Vec::<T>::new`-style path (first segment `Vec` with a bracketed type
argument, at least two segments).  Returns the updated visitor (the method
mutates `is_importable` when `T` is not builtin) and the optional
`Array<T>` name. -/
def extract_vec_type (v : ReturnTypeVisitor) (segments : List PathSeg) :
    ReturnTypeVisitor × Option String :=
  if segments.length ≥ 2 then
    match segments.head? with
    | some vec_segment =>
      if vec_segment.ident = "Vec" then
        match vec_segment.arguments with
        | .angleBracketed generics =>
          match generics.head? with
          | some (.typePath type_path) =>
            match type_path.getLast? with
            | some inner_segment =>
              let inner_type := inner_segment.ident
              let v := if ¬ is_builtin_type_rust inner_type then
                         { v with is_importable := true } else v
              (v, some ("Array<" ++ inner_type ++ ">"))
            | none => (v, none)
          | _ => (v, none)
        | _ => (v, none)
      else (v, none)
    | none => (v, none)
  else (v, none)

/-- src/parser/handlers.rs `ReturnTypeVisitor::visit_conversion_expr`. -/
def visit_conversion_expr (v : ReturnTypeVisitor) : Expr → ReturnTypeVisitor
  | .call func _args =>
    (match func with
     | .path segments =>
       -- Vec::<T>::new() pattern first.
       (match extract_vec_type v segments with
        | (v1, some vec_type) => { v1 with found_type := some vec_type, is_importable := true }
        | (v1, none) =>
          if segments.length ≥ 2 then
            match segments.get? (segments.length - 2) with
            | some segment =>
              { v1 with found_type := some segment.ident, is_importable := true }
            | none => v1
          else
            match segments.getLast? with
            | some segment =>
              { v1 with found_type := some segment.ident, is_importable := true }
            | none => v1)
     | _ => v)
  | .methodCall _ _ _ => v
  | .path _ => v
  | _ => v

/-- Size bound for the tail-expression revisit of block-like nodes: the
expression inside the last statement is smaller than the statement list. -/
theorem stmt_tail_sizeOf_lt {l : List Stmt} {e : Expr}
    (h : l.getLast? = some (Stmt.expr e)) : sizeOf e < sizeOf l := by
  have hm : Stmt.expr e ∈ l := List.mem_of_mem_getLast? (by simp [h])
  have hlt := List.sizeOf_lt_of_mem hm
  have hs : sizeOf (Stmt.expr e) = 1 + sizeOf e := by simp
  omega

set_option linter.unusedVariables false

mutual

/-- src/parser/handlers.rs `ReturnTypeVisitor::visit_expr`: the early return
once a type is found (`if self.found_type.is_some() { return; }`),
then the match body (`visit_expr_go`). -/
def visit_expr (v : ReturnTypeVisitor) (e : Expr) : ReturnTypeVisitor :=
  if v.found_type.isSome then v else visit_expr_go v e
termination_by 2 * sizeOf e + 1
decreasing_by
  simp_wf

/-- The match body of `visit_expr`: a call to a path ending in `json` hands
its first argument to `visit_conversion_expr`; otherwise recurse through
arguments, receivers, blocks, branches and match arms. -/
def visit_expr_go (v : ReturnTypeVisitor) (e : Expr) : ReturnTypeVisitor :=
    match e with
    | .call func args =>
      (match func with
       | .path segments =>
         (match segments.getLast? with
          | some segment =>
            if segment.ident = "json" then
              match args with
              | first_arg :: _ => visit_conversion_expr v first_arg
              | [] => visit_expr_list v []
            else visit_expr_list v args
          | none => visit_expr_list v args)
       | _ => visit_expr_list v args)
    | .ret (some inner) => visit_expr v inner
    | .ret none => v
    | .methodCall receiver _ args => visit_expr_list (visit_expr v receiver) args
    | .block stmts =>
      let v1 := visit_stmt_list v stmts
      (match h : stmts.getLast? with
       | some (.expr tail) => visit_expr v1 tail
       | _ => v1)
    | .ifE cond thenStmts elseBranch =>
      let v1 := visit_expr v cond
      let v2 := visit_stmt_list v1 thenStmts
      let v3 :=
        match h : thenStmts.getLast? with
        | some (.expr tail) => visit_expr v2 tail
        | _ => v2
      (match elseBranch with
       | some elseE => visit_expr v3 elseE
       | none => v3)
    | .matchE scrutinee arms => visit_expr_list (visit_expr v scrutinee) arms
    | _ => v
termination_by 2 * sizeOf e
decreasing_by
  all_goals simp_wf
  all_goals try omega
  all_goals try (have hlt := stmt_tail_sizeOf_lt h; omega)

/-- The `for arg in args { self.visit_expr(arg) }` loops. -/
def visit_expr_list (v : ReturnTypeVisitor) (es : List Expr) : ReturnTypeVisitor :=
  match es with
  | [] => v
  | e :: rest => visit_expr_list (visit_expr v e) rest
termination_by 2 * sizeOf es
decreasing_by
  all_goals simp_wf
  all_goals omega

/-- src/parser/handlers.rs `ReturnTypeVisitor::visit_stmt`: the early return,
then the match body. -/
def visit_stmt (v : ReturnTypeVisitor) (s : Stmt) : ReturnTypeVisitor :=
  if v.found_type.isSome then v else visit_stmt_go v s
termination_by 2 * sizeOf s + 1
decreasing_by
  simp_wf

/-- The match body of `visit_stmt`. -/
def visit_stmt_go (v : ReturnTypeVisitor) (s : Stmt) : ReturnTypeVisitor :=
    match s with
    | .expr e => visit_expr v e
    | .letS (some init) => visit_expr v init
    | .letS none => v
    | .itemStmt => v
    | .macStmt => v
termination_by 2 * sizeOf s
decreasing_by
  all_goals simp_wf
  all_goals omega

/-- The `for stmt in stmts { self.visit_stmt(stmt) }` loops. -/
def visit_stmt_list (v : ReturnTypeVisitor) (ss : List Stmt) : ReturnTypeVisitor :=
  match ss with
  | [] => v
  | s :: rest => visit_stmt_list (visit_stmt v s) rest
termination_by 2 * sizeOf ss
decreasing_by
  all_goals simp_wf
  all_goals omega

end

/-! ## Handler metadata (src/parser/handlers.rs) -/

/-- The part of a `syn::FnArg` the source inspects: the pattern's identifier
when the pattern is `Pat::Ident`, and the declared type. -/
inductive FnArg where
  | typed (patIdent : Option String) (ty : Ty)
  | receiver

/-- The slice of a `syn::ItemFn` the pipeline reads: name, typed inputs,
return annotation, and body statements. -/
structure ItemFn where
  name : String
  inputs : List FnArg
  output : RetAnn
  stmts : List Stmt

/-- src/parser/handlers.rs `ReturnTypeVisitor::visit_item_fn`: all statements,
then the tail expression of the block once more. -/
def visit_item_fn (v : ReturnTypeVisitor) (func : ItemFn) : ReturnTypeVisitor :=
  let v1 := visit_stmt_list v func.stmts
  match func.stmts.getLast? with
  | some (.expr tail) => visit_expr v1 tail
  | _ => v1

/-- src/parser/handlers.rs `extract_return_type_from_body`. -/
def extract_return_type_from_body (func : ItemFn) : ReturnTypeVisitor :=
  visit_item_fn ReturnTypeVisitor.default func

/-- The body-parameter scan of `extract_handler_info`: a typed input whose
declared type's last path segment is `Json`, `JsonValidate` or
`JsonValidateWithMessage` contributes its first bracketed type argument's
last segment (later inputs overwrite earlier finds). -/
def body_param_of_input (acc : Option String) : FnArg → Option String
  | .typed _ (.path segments) =>
    (match segments.getLast? with
     | some segment =>
       if segment.ident = "Json" ∨ segment.ident = "JsonValidate" ∨
          segment.ident = "JsonValidateWithMessage" then
         match segment.arguments with
         | .angleBracketed generics =>
           match generics.head? with
           | some (.typePath param_type) =>
             match param_type.getLast? with
             | some param_segment => some param_segment.ident
             | none => acc
           | _ => acc
         | _ => acc
       else acc
     | none => acc)
  | _ => acc

/-- The auth scan of `extract_handler_info`: a typed input whose pattern is
the identifier `auth` with a declared type whose last segment is `JWT`. -/
def requires_auth_of_input (acc : Bool) : FnArg → Bool
  | .typed (some patName) (.path segments) =>
    if patName = "auth" then
      match segments.getLast? with
      | some segment => if segment.ident = "JWT" then true else acc
      | none => acc
    else acc
  | _ => acc

/-- src/parser/handlers.rs `extract_handler_info`, for one function item. -/
def handler_info_of_fn (func : ItemFn) : HandlerInfo :=
  let body_param := func.inputs.foldl body_param_of_input none
  let requires_auth := func.inputs.foldl requires_auth_of_input false
  { body_param := body_param, requires_auth := requires_auth,
    return_type := extract_return_type_from_body func }

/-- A top-level `syn::Item`: a function or anything else. -/
inductive Item where
  | fn (f : ItemFn)
  | other

/-- src/parser/handlers.rs `extract_handler_info` over all items of a file.
The Rust `HashMap::insert` lets a later function of the same name overwrite
an earlier one, and only lookups are performed on the map; prepending and
taking the first match reproduces that. -/
def extract_handler_info (items : List Item) : List (String × HandlerInfo) :=
  items.foldl
    (fun m item =>
      match item with
      | .fn func => (func.name, handler_info_of_fn func) :: m
      | .other => m)
    []

/-- Rust `HashMap::get` on the association list built above. -/
def lookup_handler_info (m : List (String × HandlerInfo)) (k : String) :
    Option HandlerInfo :=
  (m.find? fun p => p.1 = k).map Prod.snd

/-! ## Per-file parsing and the scan (src/parser/mod.rs) -/

/-- The routes-function search loop of `parse_routes_from_file`: the first
function item named `routes` whose extraction yields routes wins (`break`);
an extraction error propagates (`?`); `Ok(None)` keeps scanning. -/
def find_routes_fn (config : Config) : List Item → Except String (List RouteInfo)
  | [] => .ok []
  | .fn func :: rest =>
    if func.name = "routes" then
      match extract_routes_from_axum_function config func.stmts with
      | .error e => .error e
      | .ok (some routes_vec) => .ok routes_vec
      | .ok none => find_routes_fn config rest
    else find_routes_fn config rest
  | .other :: rest => find_routes_fn config rest

/-- src/parser/mod.rs `parse_routes_from_file`, applied to the already-parsed
item list of one file (file reading and `syn::parse_file` are the external
collaborators; a parse failure would propagate just like an extraction
error does here). -/
def parse_routes_from_file (config : Config) (items : List Item) :
    Except String (Option (List RouteInfo)) :=
  match find_routes_fn config items with
  | .error e => .error e
  | .ok routes =>
    let handler_info_map := extract_handler_info items
    let routes := routes.map fun route =>
      match lookup_handler_info handler_info_map route.handler with
      | some info => { route with handler_info := info }
      | none => route
    .ok (if routes.isEmpty then none else some routes)

/-- The duplicate-route `retain` of `scan_controllers_folder`: keep a route
iff its `(method, path)` key is unseen; a dropped route emits its key on the
diagnostics side channel (the `cargo:warning` line), returned here as the
second component. -/
def dedup_routes_go (seen : List (String × String)) :
    List RouteInfo → List RouteInfo × List (String × String)
  | [] => ([], [])
  | route :: rest =>
    let key := (route.method, route.path)
    if key ∈ seen then
      let (kept, warns) := dedup_routes_go seen rest
      (kept, key :: warns)
    else
      let (kept, warns) := dedup_routes_go (key :: seen) rest
      (route :: kept, warns)

/-- Deduplicate routes by `(method, path)`, from an empty seen set. -/
def dedup_routes (routes : List RouteInfo) :
    List RouteInfo × List (String × String) :=
  dedup_routes_go [] routes

/-- The per-file loop of `scan_controllers_folder`: extend the accumulated
routes with each file's routes; a file error propagates (`?`). -/
def scan_files (config : Config) :
    List (List Item) → List RouteInfo → Except String (List RouteInfo)
  | [], acc => .ok acc
  | items :: rest, acc =>
    match parse_routes_from_file config items with
    | .error e => .error e
    | .ok (some file_routes) => scan_files config rest (acc ++ file_routes)
    | .ok none => scan_files config rest acc

/-- src/parser/mod.rs `scan_controllers_folder`, over the item lists of the
scanned files (directory listing and the `mod.rs`/extension filter are
filesystem concerns outside the embedding): gather every file's routes, then
deduplicate by `(method, path)`.  The returned warnings model the
`cargo:warning` diagnostics. -/
def scan_controllers_folder (config : Config) (files : List (List Item)) :
    Except String (List RouteInfo × List (String × String)) :=
  match scan_files config files [] with
  | .error e => .error e
  | .ok routes => .ok (dedup_routes routes)

/-! ## Return-type inference of src/lib.rs

src/lib.rs carries its own `ReturnTypeVisitor` (state: just `found_type`, no
importability) whose `visit_expr`/`visit_stmt` are textually identical to the
src/parser/handlers.rs ones but whose `visit_conversion_expr` has no
`Vec::<T>::new` branch, plus the signature fallback `extract_return_type`
that src/parser/handlers.rs does not invoke. -/

/-- src/lib.rs `ReturnTypeVisitor::visit_conversion_expr` (no `Vec` branch,
no importability flag). -/
def lib_visit_conversion_expr (v : Option String) : Expr → Option String
  | .call func _args =>
    (match func with
     | .path segments =>
       if segments.length ≥ 2 then
         match segments.get? (segments.length - 2) with
         | some segment => some segment.ident
         | none => v
       else
         match segments.getLast? with
         | some segment => some segment.ident
         | none => v
     | _ => v)
  | .methodCall _ _ _ => v
  | .path _ => v
  | _ => v

mutual

/-- src/lib.rs `ReturnTypeVisitor::visit_expr`: the early return, then the
match body (state is the optional found type). -/
def lib_visit_expr (v : Option String) (e : Expr) : Option String :=
  if v.isSome then v else lib_visit_expr_go v e
termination_by 2 * sizeOf e + 1
decreasing_by
  simp_wf

/-- The match body of `lib_visit_expr`. -/
def lib_visit_expr_go (v : Option String) (e : Expr) : Option String :=
    match e with
    | .call func args =>
      (match func with
       | .path segments =>
         (match segments.getLast? with
          | some segment =>
            if segment.ident = "json" then
              match args with
              | first_arg :: _ => lib_visit_conversion_expr v first_arg
              | [] => lib_visit_expr_list v []
            else lib_visit_expr_list v args
          | none => lib_visit_expr_list v args)
       | _ => lib_visit_expr_list v args)
    | .ret (some inner) => lib_visit_expr v inner
    | .ret none => v
    | .methodCall receiver _ args => lib_visit_expr_list (lib_visit_expr v receiver) args
    | .block stmts =>
      let v1 := lib_visit_stmt_list v stmts
      (match h : stmts.getLast? with
       | some (.expr tail) => lib_visit_expr v1 tail
       | _ => v1)
    | .ifE cond thenStmts elseBranch =>
      let v1 := lib_visit_expr v cond
      let v2 := lib_visit_stmt_list v1 thenStmts
      let v3 :=
        match h : thenStmts.getLast? with
        | some (.expr tail) => lib_visit_expr v2 tail
        | _ => v2
      (match elseBranch with
       | some elseE => lib_visit_expr v3 elseE
       | none => v3)
    | .matchE scrutinee arms => lib_visit_expr_list (lib_visit_expr v scrutinee) arms
    | _ => v
termination_by 2 * sizeOf e
decreasing_by
  all_goals simp_wf
  all_goals try omega
  all_goals try (have hlt := stmt_tail_sizeOf_lt h; omega)

/-- The argument loops of the src/lib.rs visitor. -/
def lib_visit_expr_list (v : Option String) (es : List Expr) : Option String :=
  match es with
  | [] => v
  | e :: rest => lib_visit_expr_list (lib_visit_expr v e) rest
termination_by 2 * sizeOf es
decreasing_by
  all_goals simp_wf
  all_goals omega

/-- src/lib.rs `ReturnTypeVisitor::visit_stmt`: the early return, then the
match body. -/
def lib_visit_stmt (v : Option String) (s : Stmt) : Option String :=
  if v.isSome then v else lib_visit_stmt_go v s
termination_by 2 * sizeOf s + 1
decreasing_by
  simp_wf

/-- The match body of `lib_visit_stmt`. -/
def lib_visit_stmt_go (v : Option String) (s : Stmt) : Option String :=
    match s with
    | .expr e => lib_visit_expr v e
    | .letS (some init) => lib_visit_expr v init
    | .letS none => v
    | .itemStmt => v
    | .macStmt => v
termination_by 2 * sizeOf s
decreasing_by
  all_goals simp_wf
  all_goals omega

/-- The statement loops of the src/lib.rs visitor. -/
def lib_visit_stmt_list (v : Option String) (ss : List Stmt) : Option String :=
  match ss with
  | [] => v
  | s :: rest => lib_visit_stmt_list (lib_visit_stmt v s) rest
termination_by 2 * sizeOf ss
decreasing_by
  all_goals simp_wf
  all_goals omega

end

set_option linter.unusedVariables true

/-- src/lib.rs `extract_return_type_from_body`. -/
def lib_extract_return_type_from_body (func : ItemFn) : Option String :=
  let v1 := lib_visit_stmt_list none func.stmts
  match func.stmts.getLast? with
  | some (.expr tail) => lib_visit_expr v1 tail
  | _ => v1

/-- src/lib.rs `is_result_type`. -/
def is_result_type (segments : List PathSeg) : Bool :=
  match segments.getLast? with
  | some segment => segment.ident = "Result"
  | none => false

/-- src/lib.rs `is_json_type`. -/
def is_json_type (segments : List PathSeg) : Bool :=
  match segments.getLast? with
  | some segment => segment.ident = "Json"
  | none => false

/-- src/lib.rs `extract_type_from_generic`: the `index`-th generic argument
of the last segment, when it is a path type, yields its last segment name. -/
def extract_type_from_generic (segments : List PathSeg) (index : Nat) : Option String :=
  match segments.getLast? with
  | some segment =>
    match segment.arguments with
    | .angleBracketed generics =>
      match generics.get? index with
      | some (.typePath param_type) =>
        (match param_type.getLast? with
         | some param_segment => some param_segment.ident
         | none => none)
      | _ => none
    | _ => none
  | none => none

/-- src/lib.rs `extract_return_type`: unwrap a `Result` or `Json` wrapper to
its first generic argument, otherwise use a bare path's last segment name;
`impl Trait` and all other type shapes yield `None`. -/
def extract_return_type : Ty → Option String
  | .path segments =>
    if is_result_type segments then extract_type_from_generic segments 0
    else if is_json_type segments then extract_type_from_generic segments 0
    else
      match segments.getLast? with
      | some segment => some segment.ident
      | none => none
  | .implTrait => none
  | .other => none

/-- The return-type portion of src/lib.rs `extract_handler_info`: body
analysis first; only if it produced nothing, fall back to the declared
return-type annotation. -/
def lib_handler_return_type (func : ItemFn) : Option String :=
  let return_type := lib_extract_return_type_from_body func
  if return_type.isNone then
    match func.output with
    | .ty return_ty => extract_return_type return_ty
    | .default => return_type
  else return_type

/-! ## Link-enum generator (src/generators/rust.rs)

`generate_path_build_code` emits a token stream of `path.push('/')` /
`path.push_str(...)` operations; the emitted operations are modelled as an
instruction list and their run-time behaviour as a fold that appends either a
literal or the value bound to a field variable. -/

/-- One emitted push operation of the generated `to_path` body. -/
inductive PushOp where
  | slash
  | pushLit (s : String)
  | pushField (name : String)
deriving DecidableEq

/-- src/generators/rust.rs `create_field_name` (case conversion abstracted by
`fns`). -/
def create_field_name (fns : CaseFns) (name : String) (config : NamingConfig) : String :=
  let caseName := config.field_case.getD "snake"
  sanitize_identifier (convert_to_case fns name caseName)

/-- The push operation one segment contributes: a `\x7bparam\x7d` segment
whose snake-cased name is a known field pushes the field variable, anything
else (a fixed segment, or a parameter whose field is missing) pushes the
segment text literally. -/
def seg_op (fns : CaseFns) (fields : List String) (seg : List Char) : PushOp :=
  if isBraceSegment seg then
    let field_ident := convert_to_case fns (String.mk (braceInner seg)) "snake"
    if fields.any (· = field_ident) then PushOp.pushField field_ident
    else PushOp.pushLit (String.mk seg)
  else PushOp.pushLit (String.mk seg)

/-- The segment loop of src/generators/rust.rs `generate_path_build_code`:
`i` is the index within the non-empty segments; every segment after the
first is preceded by a slash push. -/
def path_build_ops (fns : CaseFns) (fields : List String) :
    Nat → List (List Char) → List PushOp
  | _, [] => []
  | i, seg :: rest =>
    (if i > 0 then [PushOp.slash] else []) ++
      seg_op fns fields seg :: path_build_ops fns fields (i + 1) rest

/-- src/generators/rust.rs `generate_path_build_code`: split the template,
keep the non-empty segments, emit the push operations. -/
def generate_path_build_code (fns : CaseFns) (path_template : String)
    (fields : List String) : List PushOp :=
  let segments := (splitSlash path_template.toList).filter (· ≠ [])
  path_build_ops fns fields 0 segments

/-- One push of the emitted `to_path` body, with `vals` supplying the
run-time value of each field variable. -/
def push_step (vals : String → String) (path : String) : PushOp → String
  | .slash => path ++ "/"
  | .pushLit s => path ++ s
  | .pushField f => path ++ vals f

/-- Run-time semantics of the emitted `to_path` body for a parameterized
variant: an empty operation list was emitted as `"/".to_string()`, otherwise
a fresh string receives every push. -/
def run_path_build (ops : List PushOp) (vals : String → String) : String :=
  if ops.isEmpty then "/"
  else ops.foldl (push_step vals) ""

/-- Run-time semantics of the `to_path` match arm that src/generators/rust.rs
`generate` emits for one route: a route without path parameters returns its
stored path string verbatim (`#route_path.to_string()`); a route with
parameters runs the emitted push operations over its fields. -/
def link_to_path (fns : CaseFns) (config : NamingConfig) (route : RouteInfo)
    (vals : String → String) : String :=
  let path_params := extract_parameters_from_path route.path
  if path_params.isEmpty then route.path
  else
    let fields := path_params.map fun param => create_field_name fns param config
    run_path_build (generate_path_build_code fns route.path fields) vals

/-! ## TypeScript path templates (src/generators/typescript/client.rs) -/

/-- The template-accumulation loop of `generate_ts_path_template`: `i` is the
index in the unfiltered split (empty segments are skipped but still advance
`i`, and any segment with `i > 0` is preceded by a slash). -/
def ts_template_chars (camelFn : String → String) :
    Nat → List (List Char) → String
  | _, [] => ""
  | i, seg :: rest =>
    let piece :=
      if seg = [] then ""
      else
        (if i > 0 then "/" else "") ++
        (if isBraceSegment seg then
           "$\x7bparams." ++ camelFn (String.mk (braceInner seg)) ++ "\x7d"
         else String.mk seg)
    piece ++ ts_template_chars camelFn (i + 1) rest

/-- src/generators/typescript/client.rs `generate_ts_path_template` before
the backtick wrapping: an empty template becomes `/`, and a template that
does not yet start with `/` gets one prepended. -/
def ts_template_core (camelFn : String → String) (path : String) : String :=
  let template := ts_template_chars camelFn 0 (splitSlash path.toList)
  if template = "" then "/"
  else if ¬ strStartsWith template "/" then "/" ++ template
  else template

/-- src/generators/typescript/client.rs `generate_ts_path_template`: the
template wrapped in backticks (written `\x60` here). -/
def generate_ts_path_template (camelFn : String → String) (path : String)
    (_params : List String) : String :=
  "\x60" ++ ts_template_core camelFn path ++ "\x60"

/-! ## Specification-side characterizations and concrete inputs -/

/-- Keep the first occurrence of every element, in order: the canonical
accumulator-free description of duplicate removal. -/
def firstOccurrences : List String → List String
  | [] => []
  | x :: xs => x :: firstOccurrences (xs.filter (· ≠ x))
termination_by l => l.length
decreasing_by
  simp_wf
  exact Nat.lt_succ_of_le (List.length_filter_le _ _)

/-- Route identity: the `(method, path)` pair. -/
def routeKey (r : RouteInfo) : String × String :=
  (r.method, r.path)

/-- Keep the first route carrying each `(method, path)` key, in order. -/
def firstOccByKey : List RouteInfo → List RouteInfo
  | [] => []
  | r :: rs => r :: firstOccByKey (rs.filter fun x => routeKey x ≠ routeKey r)
termination_by l => l.length
decreasing_by
  simp_wf
  exact Nat.lt_succ_of_le (List.length_filter_le _ _)

/-- The name-independent shape of a route: path, method and handler. -/
def routeShape (r : RouteInfo) : String × String × String :=
  (r.path, r.method, r.handler)

/-- Name-erased view of a per-function extraction result. -/
def resultShapes (res : Except String (Option (List RouteInfo))) :
    Except String (Option (List (String × String × String))) :=
  res.map (Option.map (List.map routeShape))

/-- Name-erased view of an interpreter state. -/
def stateShape (st : ExtractState) : List (String × String × String) × String :=
  (st.routes.map routeShape, st.pfx)

/-- Every path literal handed to an `add` call reachable by the interpreter
(the receiver chain) starts with a slash.  An `add` whose arguments are
missing or whose first argument is not a string literal never produces a
route, so it is exempt. -/
def addLiteralsSlash : Expr → Bool
  | .methodCall receiver methodName args =>
    addLiteralsSlash receiver &&
    (if methodName = "add" then
       match args.get? 0, args.get? 1 with
       | some a0, some _ =>
         match extract_string_literal a0 with
         | some s => strStartsWith s "/"
         | none => true
       | _, _ => true
     else true)
  | _ => true

/-- Statement-level version of `addLiteralsSlash`. -/
def stmtAddLiteralsSlash : Stmt → Bool
  | .expr e => addLiteralsSlash e
  | _ => true

/-- How one template segment is rendered by the emitted `to_path` code: a
recognized parameter segment whose snake-cased name is a declared field
renders as that field's run-time value, anything else renders literally. -/
def rendered_segment (fns : CaseFns) (fields : List String) (vals : String → String)
    (seg : List Char) : String :=
  if isBraceSegment seg then
    let field_ident := convert_to_case fns (String.mk (braceInner seg)) "snake"
    if fields.any (· = field_ident) then vals field_ident
    else String.mk seg
  else String.mk seg

/-- Concatenation of a list of strings. -/
def concatStrings : List String → String
  | [] => ""
  | s :: rest => s ++ concatStrings rest

/-- Join rendered segments with single slash separators and no leading
slash. -/
def joinSlash : List String → String
  | [] => ""
  | [s] => s
  | s :: rest => s ++ "/" ++ joinSlash rest

/-- The normalized form the interpreter's `prefix` arm stores. -/
def normalizePfx (s : String) : String :=
  if strStartsWith s "/" then s else "/" ++ s

/-- The placeholder `HandlerInfo` attached by the `add` arm. -/
def emptyHandlerInfo : HandlerInfo :=
  { body_param := none, requires_auth := false,
    return_type := ReturnTypeVisitor.default }

/-- A chain `Routes::new().add("users", get(list_users))`: two add arguments
of the recognized shapes, but a path literal without a leading slash. -/
def chainBareLiteral : Expr :=
  .methodCall (.call (.path [.mk "Routes" .none, .mk "new" .none]) []) "add"
    [.lit (.str "users"),
     .call (.path [.mk "get" .none]) [.path [.mk "list_users" .none]]]

/-- A chain whose `add` has two arguments but a non-literal path expression:
`Routes::new().add(PATH, get(h1))`. -/
def chainBadPath : Expr :=
  .methodCall (.call (.path [.mk "Routes" .none, .mk "new" .none]) []) "add"
    [.path [.mk "PATH" .none],
     .call (.path [.mk "get" .none]) [.path [.mk "h1" .none]]]

/-- A well-formed chain
`Routes::new().prefix("/v1").add("/widgets/\x7bid\x7d", get(get_widget))`. -/
def chainGood : Expr :=
  .methodCall
    (.methodCall (.call (.path [.mk "Routes" .none, .mk "new" .none]) [])
      "prefix" [.lit (.str "/v1")])
    "add"
    [.lit (.str "/widgets/{id}"),
     .call (.path [.mk "get" .none]) [.path [.mk "get_widget" .none]]]

/-- A file whose `routes` function contains the failing chain first and a
well-formed sibling chain second. -/
def fileWithBadAdd : List Item :=
  [.fn { name := "routes", inputs := [], output := .default,
         stmts := [.expr chainBadPath, .expr chainGood] }]

/-- A file whose `routes` function contains only the well-formed chain. -/
def fileGood : List Item :=
  [.fn { name := "routes", inputs := [], output := .default,
         stmts := [.expr chainGood] }]

/-- The route that `chainGood` produces under the default naming
configuration (no handler named `get_widget` is declared in `fileGood`, so
the joined handler info stays at its placeholder). -/
def widgetRoute : RouteInfo :=
  { name := "get_v1_widgets_id", path := "/v1/widgets/{id}", method := "GET",
    handler := "get_widget", handler_info := emptyHandlerInfo }

/-- A concrete choice of case-conversion functions (identity in every case)
for witnesses. -/
def idCaseFns : CaseFns :=
  { camel := id, pascal := id, snake := id, kebab := id, title := id }

/-- A parameterless route used in witnesses. -/
def plainRoute : RouteInfo :=
  { name := "get_health", path := "/health", method := "GET",
    handler := "health", handler_info := emptyHandlerInfo }

/-- Body expression `format::json(Vec::<i32>::new())`: the empty-collection
pattern over a builtin scalar. -/
def jsonVecBuiltin : Expr :=
  .call (.path [.mk "format" .none, .mk "json" .none])
    [.call (.path [.mk "Vec" (.angleBracketed [.typePath [.mk "i32" .none]]),
                   .mk "new" .none]) []]

/-- Body expression `format::json(Vec::<Widget>::new())`: the same pattern
over a custom type. -/
def jsonVecCustom : Expr :=
  .call (.path [.mk "format" .none, .mk "json" .none])
    [.call (.path [.mk "Vec" (.angleBracketed [.typePath [.mk "Widget" .none]]),
                   .mk "new" .none]) []]

/-- A handler with no recognizable body pattern and a declared return type
`Result<Widget, ApiError>`. -/
def fnSigOnly : ItemFn :=
  { name := "get_widget", inputs := [],
    output := .ty (.path [.mk "Result"
      (.angleBracketed [.typePath [.mk "Widget" .none],
                        .typePath [.mk "ApiError" .none]])]),
    stmts := [] }

/-- A handler whose body ends in `format::json(Widget::from(x))` while its
signature declares only an opaque `impl Trait` return. -/
def fnBodyJson : ItemFn :=
  { name := "get_widget2", inputs := [], output := .ty .implTrait,
    stmts := [.expr (.call (.path [.mk "format" .none, .mk "json" .none])
      [.call (.path [.mk "Widget" .none, .mk "from" .none])
        [.path [.mk "x" .none]]])] }

/-! # Theorems -/

/-! ## Duplicate-removal characterizations -/

theorem mem_firstOccurrences (a : String) (l : List String) :
    a ∈ firstOccurrences l ↔ a ∈ l := by
  induction l using firstOccurrences.induct with
  | case1 => simp [firstOccurrences]
  | case2 x xs ih =>
    simp only [firstOccurrences, List.mem_cons, ih, List.mem_filter,
      decide_eq_true_eq, ne_eq]
    by_cases hax : a = x <;> simp [hax]

theorem nodup_firstOccurrences (l : List String) : (firstOccurrences l).Nodup := by
  induction l using firstOccurrences.induct with
  | case1 => simp [firstOccurrences]
  | case2 x xs ih =>
    rw [firstOccurrences]
    refine List.nodup_cons.mpr ⟨?_, ih⟩
    rw [mem_firstOccurrences]
    simp

theorem retainUnseen_eq_firstOccurrences (l : List String) : ∀ seen,
    retainUnseen seen l = firstOccurrences (l.filter fun x => decide (x ∉ seen)) := by
  induction l with
  | nil => intro seen; simp [retainUnseen, firstOccurrences]
  | cons x xs ih =>
    intro seen
    by_cases hx : x ∈ seen
    · rw [retainUnseen]
      simp only [hx, if_true]
      rw [ih seen, List.filter_cons]
      simp [hx]
    · have hL : retainUnseen seen (x :: xs) = x :: retainUnseen (x :: seen) xs := by
        simp [retainUnseen, hx]
      have hR : (x :: xs).filter (fun y => decide (y ∉ seen)) =
          x :: xs.filter (fun y => decide (y ∉ seen)) := by
        simp [List.filter_cons, hx]
      rw [hL, hR, firstOccurrences, ih (x :: seen), List.filter_filter]
      congr 1
      refine congrArg firstOccurrences ?_
      apply List.filter_congr
      intro y _
      have hiff : (y ∉ x :: seen) ↔ (y ≠ x ∧ y ∉ seen) := by simp [not_or]
      simp only [decide_eq_decide.mpr hiff, Bool.decide_and]

/-- C9: `extract_parameters_from_path` returns the placeholder names in
first-occurrence order with duplicates removed; a segment contributes a
parameter exactly when it starts with an opening brace and ends with a
closing brace, and a repeated name yields a single parameter. -/
theorem c9_extract_parameters_first_occurrence (path : String) :
    extract_parameters_from_path path =
      firstOccurrences ((splitSlash path.toList).filterMap fun seg =>
        if isBraceSegment seg then some (String.mk (braceInner seg)) else none) ∧
    (extract_parameters_from_path path).Nodup ∧
    ∀ name, name ∈ extract_parameters_from_path path ↔
      ∃ seg ∈ splitSlash path.toList,
        isBraceSegment seg ∧ String.mk (braceInner seg) = name := by
  have h1 : extract_parameters_from_path path =
      firstOccurrences ((splitSlash path.toList).filterMap fun seg =>
        if isBraceSegment seg then some (String.mk (braceInner seg)) else none) := by
    rw [extract_parameters_from_path, retainUnseen_eq_firstOccurrences]
    congr 1
    simp
  refine ⟨h1, ?_, ?_⟩
  · rw [h1]; exact nodup_firstOccurrences _
  · intro name
    rw [h1, mem_firstOccurrences, List.mem_filterMap]
    constructor
    · rintro ⟨seg, hseg, hif⟩
      by_cases hb : isBraceSegment seg
      · simp only [hb, if_true, Option.some.injEq] at hif
        exact ⟨seg, hseg, hb, hif⟩
      · simp [hb] at hif
    · rintro ⟨seg, hseg, hb, hname⟩
      exact ⟨seg, hseg, by simp [hb, hname]⟩

theorem mem_keys_firstOccByKey (k : String × String) (l : List RouteInfo) :
    k ∈ (firstOccByKey l).map routeKey ↔ k ∈ l.map routeKey := by
  induction l using firstOccByKey.induct with
  | case1 => simp [firstOccByKey]
  | case2 r rs ih =>
    simp only [firstOccByKey, List.map_cons, List.mem_cons, ih, List.mem_map,
      List.mem_filter, decide_eq_true_eq, ne_eq]
    by_cases hk : k = routeKey r
    · simp [hk]
    · constructor
      · rintro (rfl | ⟨x, ⟨hx, hne⟩, rfl⟩)
        · simp
        · exact Or.inr ⟨x, hx, rfl⟩
      · rintro (rfl | ⟨x, hx, rfl⟩)
        · simp
        · exact Or.inr ⟨x, ⟨hx, fun hc => hk (by rw [← hc])⟩, rfl⟩

theorem nodup_keys_firstOccByKey (l : List RouteInfo) :
    ((firstOccByKey l).map routeKey).Nodup := by
  induction l using firstOccByKey.induct with
  | case1 => simp [firstOccByKey]
  | case2 r rs ih =>
    rw [firstOccByKey, List.map_cons]
    refine List.nodup_cons.mpr ⟨?_, ih⟩
    rw [mem_keys_firstOccByKey]
    simp only [List.mem_map, List.mem_filter, decide_eq_true_eq, ne_eq]
    rintro ⟨x, ⟨_, hne⟩, hx⟩
    exact hne hx

theorem dedup_routes_go_fst (l : List RouteInfo) : ∀ seen,
    (dedup_routes_go seen l).1 =
      firstOccByKey (l.filter fun r => decide (routeKey r ∉ seen)) := by
  induction l with
  | nil => intro seen; simp [dedup_routes_go, firstOccByKey]
  | cons r rs ih =>
    intro seen
    by_cases hr : routeKey r ∈ seen
    · have hr2 : (r.method, r.path) ∈ seen := hr
      have hL : (dedup_routes_go seen (r :: rs)).1 = (dedup_routes_go seen rs).1 := by
        simp [dedup_routes_go, hr2]
      have hR : (r :: rs).filter (fun x => decide (routeKey x ∉ seen)) =
          rs.filter (fun x => decide (routeKey x ∉ seen)) := by
        simp [List.filter_cons, hr]
      rw [hL, hR, ih seen]
    · have hr2 : (r.method, r.path) ∉ seen := hr
      have hL : (dedup_routes_go seen (r :: rs)).1 =
          r :: (dedup_routes_go (routeKey r :: seen) rs).1 := by
        simp [dedup_routes_go, hr2]
        rfl
      have hR : (r :: rs).filter (fun x => decide (routeKey x ∉ seen)) =
          r :: rs.filter (fun x => decide (routeKey x ∉ seen)) := by
        simp [List.filter_cons, hr]
      rw [hL, hR, firstOccByKey, ih (routeKey r :: seen), List.filter_filter]
      congr 1
      refine congrArg firstOccByKey ?_
      apply List.filter_congr
      intro x _
      have hiff : (routeKey x ∉ routeKey r :: seen) ↔
          (routeKey x ≠ routeKey r ∧ routeKey x ∉ seen) := by simp [not_or]
      simp only [decide_eq_decide.mpr hiff, Bool.decide_and]

theorem dedup_routes_go_length (l : List RouteInfo) : ∀ seen,
    (dedup_routes_go seen l).1.length + (dedup_routes_go seen l).2.length = l.length := by
  induction l with
  | nil => intro seen; simp [dedup_routes_go]
  | cons r rs ih =>
    intro seen
    by_cases hr : (r.method, r.path) ∈ seen
    · have h1 := ih seen
      simp only [dedup_routes_go, hr, if_pos, List.length_cons]
      omega
    · have h1 := ih ((r.method, r.path) :: seen)
      simp only [dedup_routes_go, hr, if_neg, not_false_eq_true, List.length_cons]
      omega

theorem dedup_routes_go_warns (l : List RouteInfo) : ∀ seen kv,
    kv ∈ (dedup_routes_go seen l).2 →
    kv ∈ seen ∨ kv ∈ (dedup_routes_go seen l).1.map routeKey := by
  induction l with
  | nil => intro seen kv h; simp [dedup_routes_go] at h
  | cons r rs ih =>
    intro seen kv h
    by_cases hr : (r.method, r.path) ∈ seen
    · simp only [dedup_routes_go, hr, if_pos] at h ⊢
      rcases List.mem_cons.mp h with rfl | h2
      · exact Or.inl hr
      · exact ih seen kv h2
    · simp only [dedup_routes_go, hr, if_neg, not_false_eq_true] at h ⊢
      have h2 : kv ∈ (dedup_routes_go ((r.method, r.path) :: seen) rs).2 := h
      rcases ih ((r.method, r.path) :: seen) kv h2 with hmem | hmem
      · rcases List.mem_cons.mp hmem with rfl | hs
        · exact Or.inr (by simp [routeKey])
        · exact Or.inl hs
      · exact Or.inr (by simp [hmem])

/-- C2: deduplication keeps exactly the first route of every `(method, path)`
pair in traversal order, the surviving keys are pairwise distinct, every
dropped route emits one side-channel diagnostic carrying a key that survives,
and a successful collection always deduplicates into a successful scan (the
drop is not fatal). -/
theorem c2_dedup_by_method_path :
    (∀ routes : List RouteInfo,
      ((dedup_routes routes).1.map routeKey).Nodup ∧
      (dedup_routes routes).1 = firstOccByKey routes ∧
      (dedup_routes routes).1.length + (dedup_routes routes).2.length = routes.length ∧
      ∀ kv ∈ (dedup_routes routes).2, kv ∈ (dedup_routes routes).1.map routeKey) ∧
    ∀ (config : Config) (files : List (List Item)) (collected : List RouteInfo),
      scan_files config files [] = .ok collected →
      scan_controllers_folder config files = .ok (dedup_routes collected) := by
  constructor
  · intro routes
    have hfst : (dedup_routes routes).1 = firstOccByKey routes := by
      rw [dedup_routes, dedup_routes_go_fst]
      congr 1
      simp
    refine ⟨?_, hfst, dedup_routes_go_length routes [], ?_⟩
    · rw [hfst]; exact nodup_keys_firstOccByKey routes
    · intro kv hkv
      rcases dedup_routes_go_warns routes [] kv hkv with h | h
      · simp at h
      · exact h
  · intro config files collected hscan
    rw [scan_controllers_folder, hscan]

theorem c2_dedup_by_method_path_witness :
    scan_controllers_folder { naming := NamingConfig.default } [fileGood, fileGood] =
      .ok (dedup_routes [widgetRoute, widgetRoute]) :=
  c2_dedup_by_method_path.2 { naming := NamingConfig.default } [fileGood, fileGood]
    [widgetRoute, widgetRoute] (by
      simp [scan_files, parse_routes_from_file, find_routes_fn, fileGood,
        extract_routes_from_axum_function, extract_routes_from_stmts,
        extract_routes_from_expr, chainGood, extract_string_literal,
        extract_http_method_and_handler, extract_handler_info, handler_info_of_fn,
        extract_return_type_from_body, visit_item_fn, visit_stmt_list, visit_stmt,
        visit_expr, visit_conversion_expr, extract_vec_type, lookup_handler_info,
        widgetRoute, PathSeg.ident, ReturnTypeVisitor.default, emptyHandlerInfo,
        body_param_of_input, requires_auth_of_input, toUpperStr, build_full_path,
        generate_route_name, NamingConfig.default, clean_route_path_for_name,
        sanitize_identifier, toLowerStr, trimMatches, trimMatchesList, trimStartList,
        trimEndList, replaceDoubleSlash, collapseUnderscores, strStartsWith,
        trimStartMatches, trimEndMatches])

/-! ## Link path rendering -/

theorem push_step_seg_op (fns : CaseFns) (fields : List String)
    (vals : String → String) (x : String) (seg : List Char) :
    push_step vals x (seg_op fns fields seg) = x ++ rendered_segment fns fields vals seg := by
  rw [seg_op, rendered_segment]
  by_cases hb : isBraceSegment seg
  · simp only [hb, if_true]
    by_cases hf : fields.any (· = convert_to_case fns (String.mk (braceInner seg)) "snake")
    · simp [hf, push_step]
    · simp [hf, push_step]
  · simp [hb, push_step]

theorem foldl_path_build_ops (fns : CaseFns) (fields : List String)
    (vals : String → String) : ∀ (segs : List (List Char)) (i : Nat) (acc : String),
    (path_build_ops fns fields (i + 1) segs).foldl (push_step vals) acc =
      acc ++ concatStrings (segs.map fun s => "/" ++ rendered_segment fns fields vals s) := by
  intro segs
  induction segs with
  | nil => intro i acc; simp [path_build_ops, concatStrings]
  | cons s rest ih =>
    intro i acc
    rw [path_build_ops]
    simp only [Nat.succ_ne_zero, gt_iff_lt, Nat.zero_lt_succ, if_true, List.cons_append,
      List.nil_append, List.foldl_cons, List.map_cons, concatStrings]
    rw [push_step_seg_op, ih (i + 1), push_step]
    simp [String.append_assoc]

theorem joinSlash_cons (x : String) (l : List String) :
    joinSlash (x :: l) = x ++ concatStrings (l.map fun s => "/" ++ s) := by
  induction l generalizing x with
  | nil => simp [joinSlash, concatStrings]
  | cons y rest ih =>
    show x ++ "/" ++ joinSlash (y :: rest) = _
    rw [ih y, List.map_cons, concatStrings]
    simp [String.append_assoc]

/-- C10: the generated link enum's `to_path` for a route with at least one
path parameter joins the rendered non-empty template segments with single
slash separators and no leading slash; a parameterless route returns its
stored path verbatim; the TypeScript client's path template for any path
always starts (after the opening backtick) with a slash. -/
theorem c10_to_path_rendering :
    (∀ (fns : CaseFns) (config : NamingConfig) (route : RouteInfo)
        (vals : String → String),
      extract_parameters_from_path route.path = [] →
      link_to_path fns config route vals = route.path) ∧
    (∀ (fns : CaseFns) (config : NamingConfig) (route : RouteInfo)
        (vals : String → String),
      extract_parameters_from_path route.path ≠ [] →
      link_to_path fns config route vals =
        joinSlash (((splitSlash route.path.toList).filter (· ≠ [])).map
          (rendered_segment fns
            ((extract_parameters_from_path route.path).map fun param =>
              create_field_name fns param config) vals))) ∧
    ∀ (camelFn : String → String) (path : String) (ps : List String),
      strStartsWith (generate_ts_path_template camelFn path ps) ("\x60" ++ "/") = true := by
  refine ⟨?_, ?_, ?_⟩
  · intro fns config route vals hp
    simp [link_to_path, hp]
  · intro fns config route vals hp
    have hsegs : (splitSlash route.path.toList).filter (· ≠ []) ≠ [] := by
      intro hnil
      apply hp
      have hall : ∀ seg ∈ splitSlash route.path.toList, seg = [] := by
        intro seg hseg
        by_contra hne
        have hmem : seg ∈ (splitSlash route.path.toList).filter (· ≠ []) :=
          List.mem_filter.mpr ⟨hseg, by simpa using hne⟩
        rw [hnil] at hmem
        exact List.not_mem_nil seg hmem
      have hbase : ((splitSlash route.path.toList).filterMap fun seg =>
          if isBraceSegment seg then some (String.mk (braceInner seg)) else none) = [] := by
        apply List.filterMap_eq_nil_iff.mpr
        intro seg hseg
        rw [hall seg hseg]
        simp [isBraceSegment]
      rw [extract_parameters_from_path, hbase]
      simp [retainUnseen]
    rw [link_to_path]
    simp only [List.isEmpty_iff, hp, if_false]
    rw [generate_path_build_code]
    rcases hse : (splitSlash route.path.toList).filter (· ≠ []) with _ | ⟨s0, rest⟩
    · exact absurd hse hsegs
    · rw [hse]
      have hops : ∀ fields : List String, path_build_ops fns fields 0 (s0 :: rest) =
          seg_op fns fields s0 :: path_build_ops fns fields (0 + 1) rest := fun _ => rfl
      rw [hops, run_path_build]
      simp only [List.isEmpty_cons, if_false, Bool.false_eq_true, List.foldl_cons]
      rw [push_step_seg_op, foldl_path_build_ops]
      rw [List.map_cons, joinSlash_cons, List.map_map]
      simp [Function.comp_def]
  · intro camelFn path ps
    have hcore : ∃ u : List Char, (ts_template_core camelFn path).data = '/' :: u := by
      rw [ts_template_core]
      by_cases h0 : ts_template_chars camelFn 0 (splitSlash path.toList) = ""
      · rw [if_pos h0]
        exact ⟨[], rfl⟩
      · rw [if_neg h0]
        by_cases hsw : strStartsWith (ts_template_chars camelFn 0 (splitSlash path.toList)) "/" = true
        · have hsw2 : strStartsWith (ts_template_chars camelFn 0 (splitSlash path.data)) "/" = true := hsw
          rw [if_neg (by simp [hsw2])]
          rcases List.isPrefixOf_iff_prefix.mp hsw with ⟨u, hu⟩
          exact ⟨u, by simpa [String.toList] using hu.symm⟩
        · have hsw2 : ¬ strStartsWith (ts_template_chars camelFn 0 (splitSlash path.data)) "/" = true := hsw
          rw [if_pos (by simp [hsw2])]
          refine ⟨(ts_template_chars camelFn 0 (splitSlash path.toList)).data, ?_⟩
          rw [String.data_append]
          rfl
    rcases hcore with ⟨u, hu⟩
    rw [generate_ts_path_template, strStartsWith]
    have hdata : ("\x60" ++ ts_template_core camelFn path ++ "\x60").toList =
        '\x60' :: '/' :: (u ++ ['\x60']) := by
      show ("\x60" ++ ts_template_core camelFn path ++ "\x60").data = _
      rw [String.data_append, String.data_append, hu]
      rfl
    rw [hdata]
    have hpat : ("\x60" ++ "/").toList = ['\x60', '/'] := rfl
    rw [hpat]
    simp [List.isPrefixOf_iff_prefix]

theorem c10_to_path_rendering_witness :
    link_to_path idCaseFns NamingConfig.default widgetRoute (fun _ => "42") =
      joinSlash (((splitSlash widgetRoute.path.toList).filter (· ≠ [])).map
        (rendered_segment idCaseFns
          ((extract_parameters_from_path widgetRoute.path).map fun param =>
            create_field_name idCaseFns param NamingConfig.default) (fun _ => "42"))) ∧
    link_to_path idCaseFns NamingConfig.default plainRoute (fun _ => "42") = plainRoute.path ∧
    strStartsWith (generate_ts_path_template id "/health" []) ("\x60" ++ "/") = true :=
  ⟨c10_to_path_rendering.2.1 idCaseFns NamingConfig.default widgetRoute (fun _ => "42")
      (by decide),
   c10_to_path_rendering.1 idCaseFns NamingConfig.default plainRoute (fun _ => "42")
      (by decide),
   c10_to_path_rendering.2.2 id "/health" []⟩

/-! ## Interpreter structure lemmas -/

theorem extract_routes_append (config : Config) (e : Expr) (st : ExtractState) :
    ∀ st', extract_routes_from_expr config e st = .ok st' →
      ∃ t, st'.routes = st.routes ++ t := by
  induction e, st using extract_routes_from_expr.induct config with
  | case1 receiver mname args st msg herr ih =>
    intro st' h
    simp [extract_routes_from_expr, herr] at h
  | case2 receiver args st st1 hok s harg ih =>
    intro st' h
    obtain ⟨t1, ht1⟩ := ih st1 hok
    simp [extract_routes_from_expr, hok, harg] at h
    exact ⟨t1, by rw [← h]; simpa using ht1⟩
  | case3 receiver args st st1 hok hnolit ih =>
    intro st' h
    obtain ⟨t1, ht1⟩ := ih st1 hok
    simp [extract_routes_from_expr, hok] at h
    exact ⟨t1, by rw [← h]; simpa using ht1⟩
  | case4 receiver args st st1 hok path_expr method_expr h1 h0 hlit hne ih =>
    intro st' h
    rw [List.get?_eq_getElem?] at h0 h1
    simp [extract_routes_from_expr, hok, h0, h1, hlit] at h
  | case5 receiver args st st1 hok path_expr method_expr h1 h0 path hlit hmh hne ih =>
    intro st' h
    rw [List.get?_eq_getElem?] at h0 h1
    simp [extract_routes_from_expr, hok, h0, h1, hlit, hmh] at h
  | case6 receiver args st st1 hok path_expr method_expr h1 h0 path hlit method handler hmh hne ih =>
    intro st' h
    obtain ⟨t1, ht1⟩ := ih st1 hok
    rw [List.get?_eq_getElem?] at h0 h1
    simp [extract_routes_from_expr, hok, h0, h1, hlit, hmh] at h
    subst h
    exact ⟨t1 ++ [{ name := generate_route_name (build_full_path st1.pfx path) method config.naming, path := build_full_path st1.pfx path, method := method, handler := handler, handler_info := { body_param := none, requires_auth := false, return_type := ReturnTypeVisitor.default } }], by simp [ht1]⟩
  | case7 receiver args st st1 hok hmiss hne ih =>
    intro st' h
    obtain ⟨t1, ht1⟩ := ih st1 hok
    simp [extract_routes_from_expr, hok] at h
    split at h
    · rename_i pe me hh0 hh1
      exact (hmiss pe me (by rw [List.get?_eq_getElem?]; exact hh0)
        (by rw [List.get?_eq_getElem?]; exact hh1)).elim
    · simp only [Except.ok.injEq] at h
      exact ⟨t1, by rw [← h]; exact ht1⟩
  | case8 receiver mname args st st1 hok hnp hna ih =>
    intro st' h
    obtain ⟨t1, ht1⟩ := ih st1 hok
    simp [extract_routes_from_expr, hok, hnp, hna] at h
    exact ⟨t1, by rw [← h]; simpa using ht1⟩
  | case9 args0 st segments seg hlast hnew =>
    intro st' h
    simp [extract_routes_from_expr, hlast, hnew] at h
    exact ⟨[], by rw [← h]; simp⟩
  | case10 args0 st segments seg hlast hnotnew =>
    intro st' h
    simp [extract_routes_from_expr, hlast, hnotnew] at h
    exact ⟨[], by rw [← h]; simp⟩
  | case11 args0 st segments hlast =>
    intro st' h
    simp [extract_routes_from_expr, hlast] at h
    exact ⟨[], by rw [← h]; simp⟩
  | case12 func args0 st hnp =>
    intro st' h
    simp [extract_routes_from_expr] at h
    exact ⟨[], by rw [← h]; simp⟩
  | case13 t st hmc hcall =>
    intro st' h
    cases t <;> first
      | exact (hmc _ _ _ rfl).elim
      | exact (hcall _ _ rfl).elim
      | (simp [extract_routes_from_expr] at h
         exact ⟨[], by rw [← h]; simp⟩)

/-- C3: the interpreter processes a method call's receiver first, so a
`prefix(literal)` call sets the active prefix after the receiver has been
interpreted, an `add` following it in the same chain builds its full path
from that prefix, a call whose function path ends in `new` resets the
prefix to the empty string, and the interpreted receiver only ever appends
routes. -/
theorem c3_receiver_first_prefix_scope (config : Config) (r : Expr)
    (st st' : ExtractState) (s q mName hName : String)
    (hr : extract_routes_from_expr config r st = .ok st') :
    extract_routes_from_expr config (.methodCall r "prefix" [.lit (.str s)]) st =
      .ok { st' with pfx := normalizePfx s } ∧
    extract_routes_from_expr config
        (.methodCall (.methodCall r "prefix" [.lit (.str s)]) "add"
          [.lit (.str q),
           .call (.path [.mk mName .none]) [.path [.mk hName .none]]]) st =
      .ok { routes := st'.routes ++
              [{ name := generate_route_name (build_full_path (normalizePfx s) q)
                   (toUpperStr mName) config.naming,
                 path := build_full_path (normalizePfx s) q,
                 method := toUpperStr mName, handler := hName,
                 handler_info := emptyHandlerInfo }],
            pfx := normalizePfx s } ∧
    (∀ (segs : List PathSeg) (arguments : PathArgs) (callArgs : List Expr)
        (st0 : ExtractState),
      extract_routes_from_expr config
          (.call (.path (segs ++ [.mk "new" arguments])) callArgs) st0 =
        .ok { st0 with pfx := "" }) ∧
    ∃ t, st'.routes = st.routes ++ t := by
  have h1 : extract_routes_from_expr config
      (.methodCall r "prefix" [.lit (.str s)]) st = .ok { st' with pfx := normalizePfx s } := by
    simp [extract_routes_from_expr, hr, normalizePfx]
  refine ⟨h1, ?_, ?_, extract_routes_append config r st st' hr⟩
  · simp [extract_routes_from_expr, hr, extract_string_literal,
      extract_http_method_and_handler, PathSeg.ident, emptyHandlerInfo,
      ReturnTypeVisitor.default, normalizePfx]
  · intro segs arguments callArgs st0
    simp [extract_routes_from_expr, List.getLast?_concat, PathSeg.ident]

theorem c3_receiver_first_prefix_scope_witness :
    extract_routes_from_expr { naming := NamingConfig.default }
        (.methodCall (.call (.path [.mk "Routes" .none, .mk "new" .none]) [])
          "prefix" [.lit (.str "/v1")]) { routes := [], pfx := "" } =
      .ok { routes := [], pfx := normalizePfx "/v1" } :=
  (c3_receiver_first_prefix_scope { naming := NamingConfig.default }
    (.call (.path [.mk "Routes" .none, .mk "new" .none]) [])
    { routes := [], pfx := "" } { routes := [], pfx := "" }
    "/v1" "/widgets" "get" "get_widget" rfl).1

theorem shape_pfx {st stB : ExtractState} (h : stateShape st = stateShape stB) :
    st.pfx = stB.pfx := congrArg Prod.snd h

theorem shape_routes {st stB : ExtractState} (h : stateShape st = stateShape stB) :
    st.routes.map routeShape = stB.routes.map routeShape := congrArg Prod.fst h

theorem extract_shape_congr (cfgA cfgB : Config) (e : Expr) (st : ExtractState) :
    ∀ stB, stateShape st = stateShape stB →
      (extract_routes_from_expr cfgA e st).map stateShape =
      (extract_routes_from_expr cfgB e stB).map stateShape := by
  induction e, st using extract_routes_from_expr.induct cfgA with
  | case1 receiver mname args st msg herr ih =>
    intro stB hsh
    have hmap := ih stB hsh
    rw [herr] at hmap
    rcases hB : extract_routes_from_expr cfgB receiver stB with msgB | stB1
    · rw [hB] at hmap
      simp only [Except.map, Except.error.injEq] at hmap
      subst hmap
      simp [extract_routes_from_expr, herr, hB, Except.map]
    · rw [hB] at hmap
      simp [Except.map] at hmap
  | case2 receiver args st st1 hok s harg ih =>
    intro stB hsh
    have hmap := ih stB hsh
    rw [hok] at hmap
    rcases hB : extract_routes_from_expr cfgB receiver stB with msgB | stB1
    · rw [hB] at hmap; simp [Except.map] at hmap
    · rw [hB] at hmap
      simp only [Except.map, Except.ok.injEq] at hmap
      simp [extract_routes_from_expr, hok, hB, harg, Except.map, stateShape,
        shape_routes hmap, shape_pfx hmap]
  | case3 receiver args st st1 hok hnolit ih =>
    intro stB hsh
    have hmap := ih stB hsh
    rw [hok] at hmap
    rcases hB : extract_routes_from_expr cfgB receiver stB with msgB | stB1
    · rw [hB] at hmap; simp [Except.map] at hmap
    · rw [hB] at hmap
      simp only [Except.map, Except.ok.injEq] at hmap
      simp [extract_routes_from_expr, hok, hB, Except.map, stateShape,
        shape_routes hmap, shape_pfx hmap]
  | case4 receiver args st st1 hok path_expr method_expr hg1 hg0 hlit hne ih =>
    intro stB hsh
    have hmap := ih stB hsh
    rw [hok] at hmap
    rw [List.get?_eq_getElem?] at hg0 hg1
    rcases hB : extract_routes_from_expr cfgB receiver stB with msgB | stB1
    · rw [hB] at hmap; simp [Except.map] at hmap
    · rw [hB] at hmap
      simp only [Except.map, Except.ok.injEq] at hmap
      simp [extract_routes_from_expr, hok, hB, hg0, hg1, hlit, Except.map]
  | case5 receiver args st st1 hok path_expr method_expr hg1 hg0 path hlit hmh hne ih =>
    intro stB hsh
    have hmap := ih stB hsh
    rw [hok] at hmap
    rw [List.get?_eq_getElem?] at hg0 hg1
    rcases hB : extract_routes_from_expr cfgB receiver stB with msgB | stB1
    · rw [hB] at hmap; simp [Except.map] at hmap
    · rw [hB] at hmap
      simp only [Except.map, Except.ok.injEq] at hmap
      simp [extract_routes_from_expr, hok, hB, hg0, hg1, hlit, hmh, Except.map]
  | case6 receiver args st st1 hok path_expr method_expr hg1 hg0 path hlit method handler hmh hne ih =>
    intro stB hsh
    have hmap := ih stB hsh
    rw [hok] at hmap
    rw [List.get?_eq_getElem?] at hg0 hg1
    rcases hB : extract_routes_from_expr cfgB receiver stB with msgB | stB1
    · rw [hB] at hmap; simp [Except.map] at hmap
    · rw [hB] at hmap
      simp only [Except.map, Except.ok.injEq] at hmap
      simp [extract_routes_from_expr, hok, hB, hg0, hg1, hlit, hmh, Except.map,
        stateShape, routeShape, shape_routes hmap, shape_pfx hmap]
  | case7 receiver args st st1 hok hmiss hne ih =>
    intro stB hsh
    have hmap := ih stB hsh
    rw [hok] at hmap
    rcases hB : extract_routes_from_expr cfgB receiver stB with msgB | stB1
    · rw [hB] at hmap; simp [Except.map] at hmap
    · rw [hB] at hmap
      simp only [Except.map, Except.ok.injEq] at hmap
      rcases hg0 : args[0]? with _ | pe
      · simp [extract_routes_from_expr, hok, hB, hg0, Except.map, stateShape,
          shape_routes hmap, shape_pfx hmap]
      · rcases hg1 : args[1]? with _ | me
        · simp [extract_routes_from_expr, hok, hB, hg0, hg1, Except.map, stateShape,
            shape_routes hmap, shape_pfx hmap]
        · exact (hmiss pe me (by rw [List.get?_eq_getElem?]; exact hg0)
            (by rw [List.get?_eq_getElem?]; exact hg1)).elim
  | case8 receiver mname args st st1 hok hnp hna ih =>
    intro stB hsh
    have hmap := ih stB hsh
    rw [hok] at hmap
    rcases hB : extract_routes_from_expr cfgB receiver stB with msgB | stB1
    · rw [hB] at hmap; simp [Except.map] at hmap
    · rw [hB] at hmap
      simp only [Except.map, Except.ok.injEq] at hmap
      simp [extract_routes_from_expr, hok, hB, hnp, hna, Except.map, stateShape,
        shape_routes hmap, shape_pfx hmap]
  | case9 args0 st segments seg hlast hnew =>
    intro stB hsh
    simp [extract_routes_from_expr, hlast, hnew, Except.map, stateShape,
      shape_routes hsh]
  | case10 args0 st segments seg hlast hnotnew =>
    intro stB hsh
    simp [extract_routes_from_expr, hlast, hnotnew, Except.map, stateShape,
      shape_routes hsh, shape_pfx hsh]
  | case11 args0 st segments hlast =>
    intro stB hsh
    simp [extract_routes_from_expr, hlast, Except.map, stateShape,
      shape_routes hsh, shape_pfx hsh]
  | case12 func args0 st hnp =>
    intro stB hsh
    simp [extract_routes_from_expr, Except.map, stateShape,
      shape_routes hsh, shape_pfx hsh]
  | case13 t st hmc hcall =>
    intro stB hsh
    cases t <;> first
      | exact (hmc _ _ _ rfl).elim
      | exact (hcall _ _ rfl).elim
      | simp [extract_routes_from_expr, Except.map, stateShape,
          shape_routes hsh, shape_pfx hsh]

theorem extract_stmts_shape_congr (cfgA cfgB : Config) :
    ∀ (stmts : List Stmt) (stA stB : ExtractState), stateShape stA = stateShape stB →
      (extract_routes_from_stmts cfgA stmts stA).map stateShape =
      (extract_routes_from_stmts cfgB stmts stB).map stateShape := by
  intro stmts
  induction stmts with
  | nil =>
    intro stA stB h
    simp [extract_routes_from_stmts, Except.map, h]
  | cons stmt rest ih =>
    intro stA stB h
    cases stmt with
    | expr e =>
      have hc := extract_shape_congr cfgA cfgB e stA stB h
      simp only [extract_routes_from_stmts]
      rcases hA : extract_routes_from_expr cfgA e stA with mA | sA <;>
        rcases hB : extract_routes_from_expr cfgB e stB with mB | sB
      · rw [hA, hB] at hc
        simp only [Except.map, Except.error.injEq] at hc
        subst hc
        rfl
      · rw [hA, hB] at hc
        exact absurd hc (by simp [Except.map])
      · rw [hA, hB] at hc
        exact absurd hc (by simp [Except.map])
      · rw [hA, hB] at hc
        simp only [Except.map, Except.ok.injEq] at hc
        exact ih sA sB hc
    | letS init =>
      simp only [extract_routes_from_stmts]
      exact ih stA stB h
    | itemStmt =>
      simp only [extract_routes_from_stmts]
      exact ih stA stB h
    | macStmt =>
      simp only [extract_routes_from_stmts]
      exact ih stA stB h

/-- C7: prefix application for routing and prefix stripping for naming are
independent: with chain prefix `/api` and declared path `/users` the full
route path is `/api/users`, while configuring `path_prefix_to_remove =
"/api"` makes the generated name `get_users`; a name-path emptied by
stripping yields the base name `root`; and the naming configuration never
changes which routes are extracted, nor their paths, methods or handlers —
only their names. -/
theorem c7_prefix_naming_independent :
    build_full_path "/api" "/users" = "/api/users" ∧
    generate_route_name "/api/users" "GET"
      { NamingConfig.default with path_prefix_to_remove := some "/api" } = "get_users" ∧
    generate_route_name "/api" "GET"
      { NamingConfig.default with path_prefix_to_remove := some "/api" } = "get_root" ∧
    ∀ (namingA namingB : NamingConfig) (stmts : List Stmt),
      resultShapes (extract_routes_from_axum_function { naming := namingA } stmts) =
      resultShapes (extract_routes_from_axum_function { naming := namingB } stmts) := by
  refine ⟨by decide, by decide, by decide, ?_⟩
  intro nA nB stmts
  have h := extract_stmts_shape_congr { naming := nA } { naming := nB } stmts
    { routes := [], pfx := "" } { routes := [], pfx := "" } rfl
  rw [resultShapes, resultShapes, extract_routes_from_axum_function,
    extract_routes_from_axum_function]
  rcases hA : extract_routes_from_stmts { naming := nA } stmts { routes := [], pfx := "" }
      with mA | sA <;>
    rcases hB : extract_routes_from_stmts { naming := nB } stmts { routes := [], pfx := "" }
      with mB | sB
  · rw [hA, hB] at h
    simp only [Except.map, Except.error.injEq] at h
    subst h
    rfl
  · rw [hA, hB] at h
    exact absurd h (by simp [Except.map])
  · rw [hA, hB] at h
    exact absurd h (by simp [Except.map])
  · rw [hA, hB] at h
    simp only [Except.map, Except.ok.injEq] at h
    have hr := shape_routes h
    by_cases he : sA.routes = []
    · have heB : sB.routes = [] := by
        have h2 := hr
        rw [he] at h2
        simpa using h2.symm
      simp [he, heB, Except.map]
    · have heB : sB.routes ≠ [] := by
        intro hB0
        rw [hB0] at hr
        simp at hr
        exact he hr
      simp [Except.map, List.isEmpty_iff, he, heB, hr]

/-- C1 counterexample: a routes function whose first statement contains an
`add` with two arguments whose path is not a string literal makes the whole
scan fail — the well-formed sibling statement in the same function and the
well-formed second file are never processed, contradicting the claim that
such a failure aborts extraction for that statement only. -/
theorem c1_counterexample_fatal_error :
    scan_controllers_folder { naming := NamingConfig.default }
        [fileWithBadAdd, fileGood] =
      .error "Failed to extract path from add() call" := rfl

/-- C1 (amended): when an `add` call has both arguments but the path literal
cannot be extracted, the interpreter returns an error; that error aborts the
remaining statements of the routes function and propagates through the
per-file parse and the scan, failing the whole run. -/
theorem c1_add_extraction_failure_is_fatal :
    (∀ (config : Config) (r a0 a1 : Expr) (st st' : ExtractState),
      extract_string_literal a0 = none →
      extract_routes_from_expr config r st = .ok st' →
      extract_routes_from_expr config (.methodCall r "add" [a0, a1]) st =
        .error "Failed to extract path from add() call") ∧
    (∀ (config : Config) (e : Expr) (rest : List Stmt) (st : ExtractState) (msg : String),
      extract_routes_from_expr config e st = .error msg →
      extract_routes_from_stmts config (.expr e :: rest) st = .error msg) ∧
    ∀ (config : Config) (items : List Item) (files : List (List Item)) (msg : String),
      parse_routes_from_file config items = .error msg →
      scan_controllers_folder config (items :: files) = .error msg := by
  refine ⟨?_, ?_, ?_⟩
  · intro config r a0 a1 st st' hlit hr
    simp [extract_routes_from_expr, hr, hlit]
  · intro config e rest st msg herr
    simp [extract_routes_from_stmts, herr]
  · intro config items files msg hp
    simp [scan_controllers_folder, scan_files, hp]

theorem c1_add_extraction_failure_is_fatal_witness :
    extract_routes_from_expr { naming := NamingConfig.default } chainBadPath
        { routes := [], pfx := "" } =
      .error "Failed to extract path from add() call" ∧
    scan_controllers_folder { naming := NamingConfig.default }
        [fileWithBadAdd, fileGood] =
      .error "Failed to extract path from add() call" :=
  ⟨c1_add_extraction_failure_is_fatal.1 { naming := NamingConfig.default }
      (.call (.path [.mk "Routes" .none, .mk "new" .none]) [])
      (.path [.mk "PATH" .none])
      (.call (.path [.mk "get" .none]) [.path [.mk "h1" .none]])
      { routes := [], pfx := "" } { routes := [], pfx := "" } rfl rfl,
   c1_add_extraction_failure_is_fatal.2.2 { naming := NamingConfig.default }
      fileWithBadAdd [fileGood] "Failed to extract path from add() call" rfl⟩

theorem startsWith_slash_iff (s : String) :
    strStartsWith s "/" = true ↔ s.data.head? = some '/' := by
  show List.isPrefixOf ['/'] s.data = true ↔ _
  cases s.data with
  | nil => simp [List.isPrefixOf]
  | cons c t =>
    simp [List.isPrefixOf]
    exact eq_comm

theorem slash_append_startsWith (s : String) :
    strStartsWith ("/" ++ s) "/" = true := by
  rw [startsWith_slash_iff, String.data_append]
  rfl

theorem trimEndList_head (c : Char) (l : List Char) :
    trimEndList c l = [] ∨ (trimEndList c l).head? = l.head? := by
  cases l with
  | nil => exact Or.inl rfl
  | cons x xs =>
    rw [trimEndList]
    cases h : trimEndList c xs with
    | nil =>
      by_cases hx : x = c
      · left
        rw [if_pos hx]
      · right
        rw [if_neg hx]
        rfl
    | cons y t =>
      right
      rfl

theorem build_full_path_slash (pfx path : String)
    (hp : pfx = "" ∨ strStartsWith pfx "/" = true)
    (hpath : strStartsWith path "/" = true) :
    strStartsWith (build_full_path pfx path) "/" = true := by
  by_cases h0 : pfx = ""
  · simpa [build_full_path, h0] using hpath
  · rw [build_full_path, if_neg h0, startsWith_slash_iff, String.data_append,
      String.data_append]
    have hpfx : strStartsWith pfx "/" = true := hp.resolve_left h0
    have hhead : pfx.data.head? = some '/' := (startsWith_slash_iff pfx).mp hpfx
    rcases trimEndList_head '/' pfx.toList with hte | hte
    · rw [trimEndMatches]
      show (trimEndList '/' pfx.toList ++ _ ++ _).head? = some '/'
      rw [hte]
      rfl
    · rw [trimEndMatches]
      show (trimEndList '/' pfx.toList ++ _ ++ _).head? = some '/'
      cases hl : trimEndList '/' pfx.toList with
      | nil => rfl
      | cons c t =>
        rw [hl] at hte
        simp only [List.cons_append, List.head?_cons]
        rw [List.head?_cons] at hte
        exact hte.trans hhead


theorem extract_routes_slash_invariant (config : Config) (e : Expr) (st : ExtractState) :
    ∀ st', addLiteralsSlash e = true →
      (st.pfx = "" ∨ strStartsWith st.pfx "/" = true) →
      (∀ r ∈ st.routes, strStartsWith r.path "/" = true) →
      extract_routes_from_expr config e st = .ok st' →
      (st'.pfx = "" ∨ strStartsWith st'.pfx "/" = true) ∧
      ∀ r ∈ st'.routes, strStartsWith r.path "/" = true := by
  induction e, st using extract_routes_from_expr.induct config with
  | case1 receiver mname args st msg herr ih =>
    intro st' hA hp hr hok
    simp [extract_routes_from_expr, herr] at hok
  | case2 receiver args st st1 hok s harg ih =>
    intro st' hA hp hr hok2
    have hA' : addLiteralsSlash receiver = true := by
      simp [addLiteralsSlash] at hA
      exact hA
    obtain ⟨hp1, hr1⟩ := ih st1 hA' hp hr hok
    simp [extract_routes_from_expr, hok, harg] at hok2
    subst hok2
    refine ⟨Or.inr ?_, by simpa using hr1⟩
    by_cases hsw : strStartsWith s "/" = true
    · simp [hsw]
    · simp only [hsw, Bool.false_eq_true, if_false]
      exact slash_append_startsWith s
  | case3 receiver args st st1 hok hnolit ih =>
    intro st' hA hp hr hok2
    have hA' : addLiteralsSlash receiver = true := by
      simp [addLiteralsSlash] at hA
      exact hA
    obtain ⟨hp1, hr1⟩ := ih st1 hA' hp hr hok
    simp [extract_routes_from_expr, hok] at hok2
    subst hok2
    exact ⟨hp1, hr1⟩
  | case4 receiver args st st1 hok path_expr method_expr hg1 hg0 hlit hne ih =>
    intro st' hA hp hr hok2
    rw [List.get?_eq_getElem?] at hg0 hg1
    simp [extract_routes_from_expr, hok, hg0, hg1, hlit] at hok2
  | case5 receiver args st st1 hok path_expr method_expr hg1 hg0 path hlit hmh hne ih =>
    intro st' hA hp hr hok2
    rw [List.get?_eq_getElem?] at hg0 hg1
    simp [extract_routes_from_expr, hok, hg0, hg1, hlit, hmh] at hok2
  | case6 receiver args st st1 hok path_expr method_expr hg1 hg0 path hlit method handler hmh hne ih =>
    intro st' hA hp hr hok2
    rw [List.get?_eq_getElem?] at hg0 hg1
    have hA2 : addLiteralsSlash receiver = true ∧ strStartsWith path "/" = true := by
      simp [addLiteralsSlash, hg0, hg1, hlit] at hA
      exact hA
    obtain ⟨hp1, hr1⟩ := ih st1 hA2.1 hp hr hok
    simp [extract_routes_from_expr, hok, hg0, hg1, hlit, hmh] at hok2
    subst hok2
    refine ⟨hp1, ?_⟩
    intro r hrr
    simp only [List.mem_append, List.mem_singleton] at hrr
    rcases hrr with hrr | rfl
    · exact hr1 r hrr
    · exact build_full_path_slash st1.pfx path hp1 hA2.2
  | case7 receiver args st st1 hok hmiss hne ih =>
    intro st' hA hp hr hok2
    have hA' : addLiteralsSlash receiver = true := by
      simp [addLiteralsSlash] at hA
      rcases hg0 : args[0]? with _ | pe
      · simpa [hg0] using hA
      · rcases hg1 : args[1]? with _ | me
        · simpa [hg0, hg1] using hA
        · exact (hmiss pe me (by rw [List.get?_eq_getElem?]; exact hg0)
            (by rw [List.get?_eq_getElem?]; exact hg1)).elim
    obtain ⟨hp1, hr1⟩ := ih st1 hA' hp hr hok
    simp [extract_routes_from_expr, hok] at hok2
    split at hok2
    · rename_i pe me hh0 hh1
      exact (hmiss pe me (by rw [List.get?_eq_getElem?]; exact hh0)
        (by rw [List.get?_eq_getElem?]; exact hh1)).elim
    · simp only [Except.ok.injEq] at hok2
      subst hok2
      exact ⟨hp1, hr1⟩
  | case8 receiver mname args st st1 hok hnp hna ih =>
    intro st' hA hp hr hok2
    have hA' : addLiteralsSlash receiver = true := by
      simp [addLiteralsSlash, hna] at hA
      exact hA
    obtain ⟨hp1, hr1⟩ := ih st1 hA' hp hr hok
    simp [extract_routes_from_expr, hok, hnp, hna] at hok2
    subst hok2
    exact ⟨hp1, hr1⟩
  | case9 args0 st segments seg hlast hnew =>
    intro st' hA hp hr hok2
    simp [extract_routes_from_expr, hlast, hnew] at hok2
    subst hok2
    exact ⟨Or.inl rfl, by simpa using hr⟩
  | case10 args0 st segments seg hlast hnotnew =>
    intro st' hA hp hr hok2
    simp [extract_routes_from_expr, hlast, hnotnew] at hok2
    subst hok2
    exact ⟨hp, hr⟩
  | case11 args0 st segments hlast =>
    intro st' hA hp hr hok2
    simp [extract_routes_from_expr, hlast] at hok2
    subst hok2
    exact ⟨hp, hr⟩
  | case12 func args0 st hnp =>
    intro st' hA hp hr hok2
    simp [extract_routes_from_expr] at hok2
    subst hok2
    exact ⟨hp, hr⟩
  | case13 t st hmc hcall =>
    intro st' hA hp hr hok2
    cases t <;> first
      | exact (hmc _ _ _ rfl).elim
      | exact (hcall _ _ rfl).elim
      | (simp [extract_routes_from_expr] at hok2
         subst hok2
         exact ⟨hp, hr⟩)


theorem extract_stmts_slash_invariant (config : Config) :
    ∀ (stmts : List Stmt) (st st' : ExtractState),
      (∀ s ∈ stmts, stmtAddLiteralsSlash s = true) →
      (st.pfx = "" ∨ strStartsWith st.pfx "/" = true) →
      (∀ r ∈ st.routes, strStartsWith r.path "/" = true) →
      extract_routes_from_stmts config stmts st = .ok st' →
      (st'.pfx = "" ∨ strStartsWith st'.pfx "/" = true) ∧
      ∀ r ∈ st'.routes, strStartsWith r.path "/" = true := by
  intro stmts
  induction stmts with
  | nil =>
    intro st st' hlits hp hr hok
    simp only [extract_routes_from_stmts, Except.ok.injEq] at hok
    subst hok
    exact ⟨hp, hr⟩
  | cons stmt rest ih =>
    intro st st' hlits hp hr hok
    have hl0 : stmtAddLiteralsSlash stmt = true := hlits stmt (by simp)
    have hlr : ∀ s ∈ rest, stmtAddLiteralsSlash s = true :=
      fun s hs => hlits s (by simp [hs])
    cases stmt with
    | expr e =>
      simp only [extract_routes_from_stmts] at hok
      rcases he : extract_routes_from_expr config e st with m | s1
      · rw [he] at hok
        cases hok
      · rw [he] at hok
        have hinv := extract_routes_slash_invariant config e st s1
          (by simpa [stmtAddLiteralsSlash] using hl0) hp hr he
        exact ih s1 st' hlr hinv.1 hinv.2 hok
    | letS init =>
      simp only [extract_routes_from_stmts] at hok
      exact ih st st' hlr hp hr hok
    | itemStmt =>
      simp only [extract_routes_from_stmts] at hok
      exact ih st st' hlr hp hr hok
    | macStmt =>
      simp only [extract_routes_from_stmts] at hok
      exact ih st st' hlr hp hr hok

/-- C8 counterexample: with no active prefix, an `add` whose path literal
lacks a leading slash produces a route whose `path` does not start with a
slash, refuting the unconditional invariant. -/
theorem c8_counterexample_bare_literal :
    extract_routes_from_axum_function { naming := NamingConfig.default }
        [.expr chainBareLiteral] =
      .ok (some [{ name := "get_users", path := "users", method := "GET",
                   handler := "list_users", handler_info := emptyHandlerInfo }]) ∧
    strStartsWith "users" "/" = false := ⟨rfl, rfl⟩

/-- C8 (amended): the active prefix is always empty or slash-normalized, and
every extracted route's path starts with a slash provided each `add` call's
path literal does; with an empty prefix the path is the literal verbatim, so
a bare literal escapes the invariant. -/
theorem c8_paths_start_with_slash (config : Config) (stmts : List Stmt)
    (routes : List RouteInfo)
    (hlits : ∀ s ∈ stmts, stmtAddLiteralsSlash s = true)
    (hok : extract_routes_from_axum_function config stmts = .ok (some routes)) :
    ∀ r ∈ routes, strStartsWith r.path "/" = true := by
  rw [extract_routes_from_axum_function] at hok
  rcases hst : extract_routes_from_stmts config stmts { routes := [], pfx := "" }
      with m | stf
  · rw [hst] at hok
    cases hok
  · rw [hst] at hok
    have hinv := extract_stmts_slash_invariant config stmts
      { routes := [], pfx := "" } stf hlits (Or.inl rfl) (by simp) hst
    simp only [Except.ok.injEq] at hok
    by_cases he : stf.routes.isEmpty
    · rw [if_pos he] at hok
      cases hok
    · rw [if_neg he] at hok
      simp only [Option.some.injEq] at hok
      rw [← hok]
      exact hinv.2

theorem c8_paths_start_with_slash_witness :
    strStartsWith widgetRoute.path "/" = true :=
  c8_paths_start_with_slash { naming := NamingConfig.default } [.expr chainGood]
    [widgetRoute] (by decide) rfl widgetRoute (by simp)

/-- C5: evaluating the handlers visitor on the empty-typed-collection
pattern: for `format::json(Vec::<i32>::new())` the code records
`found_type = "Array<i32>"` but `is_importable = true` even though `i32` is
in the builtin scalar set — the unconditional `is_importable = true` in
`visit_conversion_expr` overrides the builtin check of `extract_vec_type`;
the custom-type case matches the claim. -/
theorem c5_vec_importability_code_behaviour :
    visit_expr ReturnTypeVisitor.default jsonVecBuiltin =
      { found_type := some "Array<i32>", is_importable := true } ∧
    visit_expr ReturnTypeVisitor.default jsonVecCustom =
      { found_type := some "Array<Widget>", is_importable := true } ∧
    is_builtin_type_rust "i32" = true := by
  refine ⟨?_, ?_, by decide⟩
  · simp [visit_expr, visit_expr_go, visit_conversion_expr, extract_vec_type,
      jsonVecBuiltin, ReturnTypeVisitor.default, PathSeg.ident, PathSeg.arguments,
      is_builtin_type_rust]
  · simp [visit_expr, visit_expr_go, visit_conversion_expr, extract_vec_type,
      jsonVecCustom, ReturnTypeVisitor.default, PathSeg.ident, PathSeg.arguments,
      is_builtin_type_rust]

theorem visit_stmt_list_stable (v : ReturnTypeVisitor) (h : v.found_type.isSome) :
    ∀ l : List Stmt, visit_stmt_list v l = v := by
  intro l
  induction l with
  | nil => rw [visit_stmt_list]
  | cons s rest ih =>
    rw [visit_stmt_list, visit_stmt, if_pos h]
    exact ih

/-- C6: the return-type visitor is first-match-wins: once `found_type` is
set, visiting any further expression or statement leaves the visitor
unchanged; statement lists fold left, and a list whose prefix already found
a type ignores its suffix entirely. -/
theorem c6_first_match_wins :
    (∀ (v : ReturnTypeVisitor) (e : Expr), v.found_type.isSome →
      visit_expr v e = v) ∧
    (∀ (v : ReturnTypeVisitor) (s : Stmt), v.found_type.isSome →
      visit_stmt v s = v) ∧
    (∀ (v : ReturnTypeVisitor) (l1 l2 : List Stmt),
      visit_stmt_list v (l1 ++ l2) = visit_stmt_list (visit_stmt_list v l1) l2) ∧
    ∀ (v : ReturnTypeVisitor) (l1 l2 : List Stmt),
      (visit_stmt_list v l1).found_type.isSome →
      visit_stmt_list v (l1 ++ l2) = visit_stmt_list v l1 := by
  have happ : ∀ (l1 l2 : List Stmt) (v : ReturnTypeVisitor),
      visit_stmt_list v (l1 ++ l2) = visit_stmt_list (visit_stmt_list v l1) l2 := by
    intro l1
    induction l1 with
    | nil => intro l2 v; rw [visit_stmt_list]; rfl
    | cons s rest ih =>
      intro l2 v
      rw [List.cons_append, visit_stmt_list, visit_stmt_list, ih]
  refine ⟨?_, ?_, fun v l1 l2 => happ l1 l2 v, ?_⟩
  · intro v e h
    rw [visit_expr, if_pos h]
  · intro v s h
    rw [visit_stmt, if_pos h]
  · intro v l1 l2 h
    rw [happ, visit_stmt_list_stable _ h]

/-- C4: return-type inference in src/lib.rs runs body inspection first — a
body-found type wins even over a declared annotation — and falls back to the
annotation only when the body yields nothing; the annotation fallback
unwraps `Result` and `Json` wrappers to their first generic argument, uses a
bare path's last segment name, and maps `impl Trait` to `None`. -/
theorem c4_return_type_fallback_chain :
    (∀ (func : ItemFn) (t : String),
      lib_extract_return_type_from_body func = some t →
      lib_handler_return_type func = some t) ∧
    (∀ func : ItemFn,
      lib_extract_return_type_from_body func = none →
      lib_handler_return_type func =
        match func.output with
        | .ty return_ty => extract_return_type return_ty
        | .default => none) ∧
    (∀ (segs innerSegs : List PathSeg) (restArgs : List GenArg) (innerSeg : PathSeg),
      segs.getLast? = some (.mk "Result" (.angleBracketed (.typePath innerSegs :: restArgs))) →
      innerSegs.getLast? = some innerSeg →
      extract_return_type (.path segs) = some innerSeg.ident) ∧
    (∀ (segs innerSegs : List PathSeg) (restArgs : List GenArg) (innerSeg : PathSeg),
      segs.getLast? = some (.mk "Json" (.angleBracketed (.typePath innerSegs :: restArgs))) →
      innerSegs.getLast? = some innerSeg →
      extract_return_type (.path segs) = some innerSeg.ident) ∧
    (∀ (segs : List PathSeg) (seg : PathSeg),
      segs.getLast? = some seg → seg.ident ≠ "Result" → seg.ident ≠ "Json" →
      extract_return_type (.path segs) = some seg.ident) ∧
    extract_return_type .implTrait = none := by
  refine ⟨?_, ?_, ?_, ?_, ?_, rfl⟩
  · intro func t h
    simp [lib_handler_return_type, h]
  · intro func h
    simp [lib_handler_return_type, h]
  · intro segs innerSegs restArgs innerSeg hlast hinner
    simp [extract_return_type, is_result_type, hlast, PathSeg.ident,
      extract_type_from_generic, PathSeg.arguments, hinner]
  · intro segs innerSegs restArgs innerSeg hlast hinner
    simp [extract_return_type, is_result_type, is_json_type, hlast, PathSeg.ident,
      extract_type_from_generic, PathSeg.arguments, hinner]
  · intro segs seg hlast hnr hnj
    obtain ⟨i, a⟩ := seg
    simp only [PathSeg.ident] at hnr hnj
    simp [extract_return_type, is_result_type, is_json_type, hlast, PathSeg.ident,
      hnr, hnj]

theorem c4_return_type_fallback_chain_witness :
    lib_handler_return_type fnSigOnly = some "Widget" ∧
    lib_handler_return_type fnBodyJson = some "Widget" := by
  constructor
  · have h2 := c4_return_type_fallback_chain.2.1 fnSigOnly
      (by simp [lib_extract_return_type_from_body, lib_visit_stmt_list, fnSigOnly])
    have h3 := c4_return_type_fallback_chain.2.2.1
      [PathSeg.mk "Result" (.angleBracketed [.typePath [.mk "Widget" .none],
        .typePath [.mk "ApiError" .none]])]
      [PathSeg.mk "Widget" .none] [.typePath [.mk "ApiError" .none]]
      (PathSeg.mk "Widget" .none) rfl rfl
    rw [h2]
    exact h3
  · exact c4_return_type_fallback_chain.1 fnBodyJson "Widget"
      (by simp [lib_extract_return_type_from_body, lib_visit_stmt_list,
        lib_visit_stmt, lib_visit_stmt_go, lib_visit_expr, lib_visit_expr_go,
        lib_visit_conversion_expr, fnBodyJson, PathSeg.ident])

theorem c6_first_match_wins_witness :
    visit_expr { found_type := some "Widget", is_importable := true } Expr.other =
      { found_type := some "Widget", is_importable := true } ∧
    visit_stmt_list { found_type := some "Widget", is_importable := true }
        ([Stmt.itemStmt] ++ [Stmt.macStmt]) =
      visit_stmt_list { found_type := some "Widget", is_importable := true }
        [Stmt.itemStmt] :=
  ⟨c6_first_match_wins.1 { found_type := some "Widget", is_importable := true }
      Expr.other (by decide),
   c6_first_match_wins.2.2.2 { found_type := some "Widget", is_importable := true }
      [Stmt.itemStmt] [Stmt.macStmt]
      (by simp [visit_stmt_list, visit_stmt, visit_stmt_go])⟩

end RouteInfoBuilder
